import Mathlib

/-!
# Verification of pyvcd (VCD writer / tokenizer)

Shallow embedding of the `vcd.writer` and `vcd.reader` modules.
Python strings are modelled as `List Char`, Python's dynamic values
(int / bool / str / None / tuple) as the inductive `PyVal` (booleans map
to the ints 1/0, as Python's `bool` is a subclass of `int`), and file
output as an accumulated `List Char`.
-/

namespace VCD

/-- Python dynamic value universe used by the writer API
(`VarValue = Union[EventValue, RealValue, ScalarValue, StringValue, CompoundValue]`).
Floats are modelled only at integer points (a Python `int` is a legal
`RealValue`); true non-integer floats are outside the embedding. -/
inductive PyVal where
  | int (i : Int)
  | str (s : List Char)
  | none
  | tup (vs : List PyVal)
deriving Repr

mutual

/-- Decidable equality on `PyVal`; agrees with Python `==` on the modelled
domain (`True == 1` holds in Python and booleans are embedded as ints;
values of distinct kinds compare unequal in Python as here). -/
def PyVal.decEq : (a b : PyVal) → Decidable (a = b)
  | .int a, .int b =>
    if h : a = b then isTrue (by rw [h])
    else isFalse (by intro hc; cases hc; exact h rfl)
  | .str a, .str b =>
    if h : a = b then isTrue (by rw [h])
    else isFalse (by intro hc; cases hc; exact h rfl)
  | .none, .none => isTrue rfl
  | .tup a, .tup b =>
    match PyVal.decEqList a b with
    | isTrue h => isTrue (by rw [h])
    | isFalse h => isFalse (by intro hc; cases hc; exact h rfl)
  | .int _, .str _ => isFalse (by intro h; cases h)
  | .int _, .none => isFalse (by intro h; cases h)
  | .int _, .tup _ => isFalse (by intro h; cases h)
  | .str _, .int _ => isFalse (by intro h; cases h)
  | .str _, .none => isFalse (by intro h; cases h)
  | .str _, .tup _ => isFalse (by intro h; cases h)
  | .none, .int _ => isFalse (by intro h; cases h)
  | .none, .str _ => isFalse (by intro h; cases h)
  | .none, .tup _ => isFalse (by intro h; cases h)
  | .tup _, .int _ => isFalse (by intro h; cases h)
  | .tup _, .str _ => isFalse (by intro h; cases h)
  | .tup _, .none => isFalse (by intro h; cases h)

/-- Decidable equality on lists of `PyVal`. -/
def PyVal.decEqList : (a b : List PyVal) → Decidable (a = b)
  | [], [] => isTrue rfl
  | [], _ :: _ => isFalse (by intro h; cases h)
  | _ :: _, [] => isFalse (by intro h; cases h)
  | x :: xs, y :: ys =>
    match PyVal.decEq x y, PyVal.decEqList xs ys with
    | isTrue h1, isTrue h2 => isTrue (by rw [h1, h2])
    | isFalse h1, _ => isFalse (by intro hc; cases hc; exact h1 rfl)
    | _, isFalse h2 => isFalse (by intro hc; cases hc; exact h2 rfl)

end

instance : DecidableEq PyVal := PyVal.decEq

/-- Python truthiness (`bool(v)`) for the modelled values. -/
def PyVal.truthy : PyVal → Bool
  | .int i => i != 0
  | .str s => !s.isEmpty
  | .none => false
  | .tup vs => !vs.isEmpty

/-- Digits of `n` in base `b` (msb first), prepended to `acc`. The first
argument is fuel making the recursion structural (and hence reducible by
the kernel); any fuel `≥ n` gives the true digit string. -/
def toBaseAux (b : Nat) (dig : Nat → Char) : Nat → Nat → List Char → List Char
  | _, 0, acc => acc
  | 0, _ + 1, acc => acc
  | fuel + 1, n + 1, acc =>
    toBaseAux b dig fuel ((n + 1) / b) (dig ((n + 1) % b) :: acc)

/-- Minimal-width base-`b` rendering of `n` (`dig 0` alone for 0), as
Python's `format` / `str`. -/
def toBase (b : Nat) (dig : Nat → Char) (n : Nat) : List Char :=
  if n = 0 then [dig 0] else toBaseAux b dig n n []

/-- Value of a base-`b` digit string (msb first) under digit value `dval`. -/
def ofBase (b : Nat) (dval : Char → Nat) (s : List Char) : Nat :=
  s.foldl (fun a c => b * a + dval c) 0

/-- Digit character for `d < 10` (also the binary digits for `d < 2`). -/
def decDigit (d : Nat) : Char := Char.ofNat (48 + d)

/-- Python `format(n, 'b')`: minimal-width binary rendering, `"0"` for 0. -/
def natToBin (n : Nat) : List Char := toBase 2 decDigit n

/-- Value of a binary digit string (chars `'0'`/`'1'`), msb first; this is
also Python `int(s, 2)` on such strings. -/
def binToNat (s : List Char) : Nat :=
  ofBase 2 (fun c => if c = '1' then 1 else 0) s

/-- Python `str(n)` for a natural number. -/
def natToDec (n : Nat) : List Char := toBase 10 decDigit n

/-- Python `int(s)` for a decimal digit string. -/
def decToNat (s : List Char) : Nat :=
  ofBase 10 (fun c => c.toNat - 48) s

/-- Python `str(i)` for an integer. -/
def intToDec (i : Int) : List Char :=
  if i < 0 then '-' :: natToDec i.natAbs else natToDec i.toNat

/-- Hex digit character for `d < 16` (lowercase, as Python `format(_, 'x')`). -/
def hexDigit (d : Nat) : Char :=
  if d < 10 then Char.ofNat (48 + d) else Char.ofNat (97 + (d - 10))

/-- Python `format(n, 'x')`: minimal-width lowercase hex, `"0"` for 0. -/
def natToHex (n : Nat) : List Char := toBase 16 hexDigit n

/-- Python exception classes raised by the writer. -/
inductive PyErr where
  | valueError (msg : List Char)
  | typeError (msg : List Char)
  | keyError (msg : List Char)
  | phaseError (msg : List Char)
deriving DecidableEq, Repr

/-- The characters of the Python literal `'01xzXZ'`. -/
def scalarChars : List Char := ['0', '1', 'x', 'z', 'X', 'Z']

/-- The characters of the Python literal `'01xzXZ-'`. -/
def vectorChars : List Char := ['0', '1', 'x', 'z', 'X', 'Z', '-']

/-- Python `repr` for the modelled values (used by `str.format` when a
non-string slips into a format slot with checking disabled). String
escaping is not modelled (no claim exercises it). -/
def pyRepr : PyVal → List Char
  | .int i => intToDec i
  | .str s => '\'' :: (s ++ ['\''])
  | .none => "None".toList
  | .tup vs => '(' :: (pyReprTupItems vs ++ (if vs.length = 1 then [','] else []) ++ [')'])
where
  /-- `", "`-separated reprs of the elements of a tuple. -/
  pyReprTupItems : List PyVal → List Char
  | [] => []
  | [v] => pyRepr v
  | v :: rest => pyRepr v ++ (',' :: ' ' :: pyReprTupItems rest)

/-- Python `str()` of a value, as used by `'{}'.format(value)`. -/
def pyStr : PyVal → List Char
  | .str s => s
  | v => pyRepr v

/-- `vcd.writer._format_scalar_value(value, size, check)`. -/
def formatScalarValue (value : PyVal) (size : Nat) (check : Bool) :
    Except PyErr (List Char) :=
  match value with
  | .int v =>
    let maxVal : Int := Int.ofNat (1 <<< size)
    if check ∧ (-v > maxVal / 2 ∨ v ≥ maxVal) then
      .error (.valueError ("Value not representable".toList))
    else
      let v' : Int := if v < 0 then v + maxVal else v
      .ok (natToBin v'.toNat)
  | .none => .ok ['z']
  | v =>
    -- Python: the final `else` branch; `value` is a `str` (or, with
    -- checking disabled, any other object, which `'{}'.format` stringifies).
    match v with
    | .str s =>
      if check ∧ (s.length > size ∨ s.any (fun c => ¬ vectorChars.contains c)) then
        .error (.valueError ("Invalid vector value".toList))
      else .ok s
    | other =>
      if check then .error (.valueError ("Invalid vector value".toList))
      else .ok (pyStr other)

/-! ## Properties of the positional renderings -/

theorem toBaseAux_zero (b : Nat) (dig : Nat → Char) (f : Nat) (acc : List Char) :
    toBaseAux b dig f 0 acc = acc := by
  cases f <;> rfl

theorem toBaseAux_succ (b : Nat) (dig : Nat → Char) (f n : Nat) (acc : List Char) :
    toBaseAux b dig (f + 1) (n + 1) acc =
      toBaseAux b dig f ((n + 1) / b) (dig ((n + 1) % b) :: acc) := rfl

theorem div_base_le (b n : Nat) (hb : 2 ≤ b) : (n + 1) / b ≤ n := by
  have h1 : (n + 1) / b ≤ (n + 1) / 2 := Nat.div_le_div_left hb (by decide)
  omega

theorem toBaseAux_fuel (b : Nat) (dig : Nat → Char) (hb : 2 ≤ b)
    (f1 f2 n : Nat) (acc : List Char) (h1 : n ≤ f1) (h2 : n ≤ f2) :
    toBaseAux b dig f1 n acc = toBaseAux b dig f2 n acc := by
  induction f1 generalizing f2 n acc with
  | zero =>
    have h : n = 0 := by omega
    subst h
    rw [toBaseAux_zero, toBaseAux_zero]
  | succ f1 ih =>
    match n, h1, h2 with
    | 0, _, _ => rw [toBaseAux_zero, toBaseAux_zero]
    | n + 1, h1, h2 =>
      match f2, h2 with
      | f2 + 1, h2 =>
        rw [toBaseAux_succ, toBaseAux_succ]
        have hd := div_base_le b n hb
        exact ih f2 ((n + 1) / b) _ (by omega) (by omega)

theorem toBaseAux_eq_append (b : Nat) (dig : Nat → Char) (hb : 2 ≤ b)
    (fuel n : Nat) (acc : List Char) (h : n ≤ fuel) :
    toBaseAux b dig fuel n acc = toBaseAux b dig fuel n [] ++ acc := by
  induction fuel generalizing n acc with
  | zero =>
    have h0 : n = 0 := by omega
    subst h0
    rw [toBaseAux_zero, toBaseAux_zero]
    simp
  | succ f ih =>
    match n, h with
    | 0, _ =>
      rw [toBaseAux_zero, toBaseAux_zero]
      simp
    | n + 1, h =>
      rw [toBaseAux_succ, toBaseAux_succ]
      have hd : (n + 1) / b ≤ f := by
        have := div_base_le b n hb
        omega
      rw [ih ((n + 1) / b) _ hd, ih ((n + 1) / b) [dig ((n + 1) % b)] hd]
      simp

theorem ofBase_append (b : Nat) (dval : Char → Nat) (x y : List Char) :
    ofBase b dval (x ++ y) =
      ofBase b dval x * b ^ y.length + ofBase b dval y := by
  suffices h : ∀ (a : Nat) (l : List Char),
      l.foldl (fun a c => b * a + dval c) a =
      a * b ^ l.length + l.foldl (fun a c => b * a + dval c) 0 by
    rw [ofBase, List.foldl_append]
    rw [h (List.foldl (fun a c => b * a + dval c) 0 x) y]
    rfl
  intro a l
  induction l generalizing a with
  | nil => simp
  | cons c tl ih =>
    simp only [List.foldl_cons, List.length_cons]
    rw [ih (b * a + dval c), ih (b * 0 + dval c)]
    ring

theorem ofBase_toBaseAux (b : Nat) (dig : Nat → Char) (dval : Char → Nat)
    (hb : 2 ≤ b) (hdig : ∀ d, d < b → dval (dig d) = d)
    (fuel n : Nat) (h : n ≤ fuel) :
    ofBase b dval (toBaseAux b dig fuel n []) = n := by
  induction fuel generalizing n with
  | zero =>
    have h0 : n = 0 := by omega
    subst h0
    rfl
  | succ f ih =>
    match n, h with
    | 0, _ => rfl
    | n + 1, h =>
      rw [toBaseAux_succ]
      have hd : (n + 1) / b ≤ f := by
        have := div_base_le b n hb
        omega
      rw [toBaseAux_eq_append b dig hb f _ _ hd, ofBase_append, ih _ hd]
      have hm : ofBase b dval [dig ((n + 1) % b)] = (n + 1) % b := by
        have : dval (dig ((n + 1) % b)) = (n + 1) % b :=
          hdig _ (Nat.mod_lt _ (by omega))
        simp [ofBase, this]
      rw [hm]
      simp only [List.length_singleton, pow_one]
      rw [Nat.mul_comm]
      exact Nat.div_add_mod (n + 1) b

theorem toBaseAux_length_le (b : Nat) (dig : Nat → Char) (hb : 2 ≤ b)
    (fuel n k : Nat) (hn : n ≤ fuel) (h : n < b ^ k) :
    (toBaseAux b dig fuel n []).length ≤ k := by
  induction fuel generalizing n k with
  | zero =>
    have h0 : n = 0 := by omega
    subst h0
    simp [toBaseAux_zero]
  | succ f ih =>
    match n, hn with
    | 0, _ => simp [toBaseAux_zero]
    | n + 1, hn =>
      rw [toBaseAux_succ]
      have hd : (n + 1) / b ≤ f := by
        have := div_base_le b n hb
        omega
      rw [toBaseAux_eq_append b dig hb f _ _ hd, List.length_append]
      have hk : k ≠ 0 := by
        intro hk0
        subst hk0
        simp at h
      have hdiv : (n + 1) / b < b ^ (k - 1) := by
        rw [Nat.div_lt_iff_lt_mul (by omega : 0 < b)]
        calc n + 1 < b ^ k := h
        _ = b ^ (k - 1) * b := by
            conv_lhs => rw [show k = (k - 1) + 1 by omega]
            rw [pow_succ]
      have := ih _ (k - 1) hd hdiv
      simp only [List.length_singleton]
      omega

theorem toBaseAux_leading (b : Nat) (dig : Nat → Char) (hb : 2 ≤ b)
    (fuel n : Nat) (hn1 : 1 ≤ n) (hn : n ≤ fuel) :
    ∃ d rest, 1 ≤ d ∧ d < b ∧ toBaseAux b dig fuel n [] = dig d :: rest := by
  induction fuel generalizing n with
  | zero => omega
  | succ f ih =>
    match n, hn, hn1 with
    | n + 1, hn, _ =>
      rw [toBaseAux_succ]
      have hd : (n + 1) / b ≤ f := by
        have := div_base_le b n hb
        omega
      by_cases hz : (n + 1) / b = 0
      · have hmod : (n + 1) % b = n + 1 := by
          have hdm := Nat.div_add_mod (n + 1) b
          rw [hz, Nat.mul_zero] at hdm
          omega
        have hlt : n + 1 < b := by
          have := Nat.mod_lt (n + 1) (show 0 < b by omega)
          omega
        refine ⟨n + 1, [], by omega, hlt, ?_⟩
        rw [hz, toBaseAux_zero, hmod]
      · rw [toBaseAux_eq_append b dig hb f _ _ hd]
        have hz1 : 1 ≤ (n + 1) / b := Nat.one_le_iff_ne_zero.mpr hz
        obtain ⟨d, rest, hd1, hdb, heq⟩ := ih ((n + 1) / b) hz1 hd
        exact ⟨d, rest ++ [dig ((n + 1) % b)], hd1, hdb, by rw [heq]; rfl⟩

theorem decDigit_binval (d : Nat) (hd : d < 2) :
    (if decDigit d = '1' then 1 else 0) = d := by
  match d, hd with
  | 0, _ => decide
  | 1, _ => decide

/-- The round trip: the binary digits render/parse pair is the identity. -/
theorem binToNat_natToBin (n : Nat) : binToNat (natToBin n) = n := by
  rw [natToBin, binToNat, toBase]
  by_cases h : n = 0
  · subst h
    decide
  · simp only [h, if_false]
    exact ofBase_toBaseAux 2 decDigit _ (by decide)
      (fun d hd => decDigit_binval d hd) n n (le_refl n)

theorem natToBin_ne_nil (n : Nat) : natToBin n ≠ [] := by
  rw [natToBin, toBase]
  by_cases h : n = 0
  · simp [h]
  · simp only [h, if_false]
    obtain ⟨d, rest, -, -, heq⟩ :=
      toBaseAux_leading 2 decDigit (by decide) n n (by omega) (le_refl n)
    rw [heq]
    simp

theorem natToBin_length_le (n k : Nat) (hk : 0 < k) (h : n < 2 ^ k) :
    (natToBin n).length ≤ k := by
  rw [natToBin, toBase]
  by_cases h0 : n = 0
  · simpa [h0] using hk
  · simp only [h0, if_false]
    exact toBaseAux_length_le 2 decDigit (by decide) n n k (le_refl n) h

/-! ## Claim C3: vector integer formatting round trip -/

/-- Modelled from the spec: "re-parsing the resulting binary text as an
n-bit two's-complement number". The digit string is read as an unsigned
binary number (zero-extended to `n` bits) and interpreted in `n`-bit
two's complement. -/
def twosComplementParse (s : List Char) (n : Nat) : Int :=
  let u : Int := Int.ofNat (binToNat s)
  if u ≥ 2 ^ (n - 1) then u - 2 ^ n else u

/-- `Except` equality is decidable componentwise (needed to `decide`
concrete evaluations of the fallible formatters). -/
instance {ε α : Type} [DecidableEq ε] [DecidableEq α] : DecidableEq (Except ε α)
  | .ok a, .ok b =>
    if h : a = b then isTrue (by rw [h])
    else isFalse (by intro hc; cases hc; exact h rfl)
  | .error a, .error b =>
    if h : a = b then isTrue (by rw [h])
    else isFalse (by intro hc; cases hc; exact h rfl)
  | .ok _, .error _ => isFalse (by intro h; cases h)
  | .error _, .ok _ => isFalse (by intro h; cases h)

theorem intOfNat_one_shiftLeft (n : Nat) : (Int.ofNat (1 <<< n)) = (2 : Int) ^ n := by
  rw [Nat.one_shiftLeft]
  exact_mod_cast rfl

theorem two_pow_ediv_two (n : Nat) (hn : 1 ≤ n) :
    ((2 : Int) ^ n) / 2 = 2 ^ (n - 1) := by
  conv_lhs => rw [show n = (n - 1) + 1 by omega]
  rw [pow_succ]
  exact Int.mul_ediv_cancel _ (by norm_num)

/-- The unsigned image of an integer at width `s`
(`value += max_val` for negatives, as in `_format_scalar_value`). -/
def imageNat (v : Int) (s : Nat) : Nat := (if v < 0 then v + 2 ^ s else v).toNat

theorem formatScalarValue_int_ok (s : Nat) (v : Int) (hs : 1 ≤ s)
    (h1 : -(2 ^ (s - 1) : Int) ≤ v) (h2 : v < 2 ^ s) :
    formatScalarValue (.int v) s true = .ok (natToBin (imageNat v s)) := by
  have hpow := intOfNat_one_shiftLeft s
  have hhalf := two_pow_ediv_two s hs
  have h2n : (2 : Int) ^ s = 2 ^ (s - 1) * 2 := by
    conv_lhs => rw [show s = (s - 1) + 1 by omega]
    rw [pow_succ]
  simp only [formatScalarValue, imageNat]
  rw [hpow, hhalf]
  split_ifs with hc
  · exfalso
    rcases hc with ⟨-, hc | hc⟩ <;> omega
  · rfl
  · rfl

theorem formatScalarValue_int_err (s : Nat) (v : Int) (hs : 1 ≤ s)
    (h : v < -(2 ^ (s - 1) : Int) ∨ (2 ^ s : Int) ≤ v) :
    formatScalarValue (.int v) s true =
      .error (.valueError ("Value not representable".toList)) := by
  have hpow := intOfNat_one_shiftLeft s
  have hhalf := two_pow_ediv_two s hs
  simp only [formatScalarValue]
  rw [hpow, hhalf]
  split_ifs with hc
  · rfl
  · exfalso
    exact hc ⟨trivial, by omega⟩

/-- Two's-complement re-parse of any digit string whose unsigned value is
the width-`s` image of the in-range value `v`. -/
theorem twosComplementParse_bits (bits : List Char) (s : Nat) (v : Int)
    (hs : 1 ≤ s) (h1 : -(2 ^ (s - 1) : Int) ≤ v) (h2 : v < 2 ^ s)
    (hbits : binToNat bits = imageNat v s) :
    twosComplementParse bits s = if v < 2 ^ (s - 1) then v else v - 2 ^ s := by
  have h2n : (2 : Int) ^ s = 2 ^ (s - 1) * 2 := by
    conv_lhs => rw [show s = (s - 1) + 1 by omega]
    rw [pow_succ]
  have hposh : (0 : Int) < 2 ^ (s - 1) := by positivity
  have hge : (0 : Int) ≤ (if v < 0 then v + 2 ^ s else v) := by
    split_ifs <;> omega
  have hofNat : Int.ofNat (imageNat v s) = (if v < 0 then v + 2 ^ s else v) := by
    rw [imageNat]
    simpa using Int.toNat_of_nonneg hge
  simp only [twosComplementParse, hbits, hofNat]
  split_ifs <;> omega

/-- C3 (amended): for width `n ≥ 1`, formatting an integer `v` with
`-(2^(n-1)) ≤ v < 2^n` succeeds, producing the minimal binary rendering of
the unsigned image `v mod 2^n`; re-parsing that text as an `n`-bit
two's-complement number recovers `v` exactly when `v < 2^(n-1)`, and
`v - 2^n` otherwise (the upper half of the accepted range shares bit
patterns with the negative values, so exact recovery there is impossible).
Values outside the range raise a `ValueError`. -/
theorem C3_vector_format_roundtrip (n : Nat) (v : Int) (hn : 1 ≤ n) :
    (-(2 ^ (n - 1) : Int) ≤ v ∧ v < 2 ^ n →
      formatScalarValue (.int v) n true = .ok (natToBin (imageNat v n)) ∧
      twosComplementParse (natToBin (imageNat v n)) n =
        (if v < 2 ^ (n - 1) then v else v - 2 ^ n)) ∧
    (v < -(2 ^ (n - 1) : Int) ∨ (2 ^ n : Int) ≤ v →
      formatScalarValue (.int v) n true =
        .error (.valueError ("Value not representable".toList))) := by
  constructor
  · rintro ⟨h1, h2⟩
    exact ⟨formatScalarValue_int_ok n v hn h1 h2,
      twosComplementParse_bits _ n v hn h1 h2 (binToNat_natToBin _)⟩
  · exact formatScalarValue_int_err n v hn

/-- C3 counterexample: at width `n = 1` and `v = 1` (inside the claimed
range `-(2^0) ≤ v < 2^1`), formatting yields `"1"`, but re-parsing that
text as a 1-bit two's-complement number gives `-1`, not `1`: the claimed
round trip fails on the upper half of the accepted range. -/
theorem C3_counterexample :
    (-(2 ^ (1 - 1) : Int) ≤ 1 ∧ (1 : Int) < 2 ^ 1) ∧
    formatScalarValue (.int 1) 1 true = .ok ['1'] ∧
    twosComplementParse ['1'] 1 = -1 := by decide

/-- Witness for C3 at `n = 4`, `v = -3`: format gives `"1101"` and the
two's-complement re-parse recovers `-3`; `v = 100` is rejected. -/
theorem C3_vector_format_roundtrip_witness :
    (formatScalarValue (.int (-3)) 4 true = .ok ['1', '1', '0', '1'] ∧
      twosComplementParse ['1', '1', '0', '1'] 4 = -3) ∧
    formatScalarValue (.int 100) 4 true =
      .error (.valueError ("Value not representable".toList)) := by
  have h1 := (C3_vector_format_roundtrip 4 (-3) (by decide)).1 ⟨by decide, by decide⟩
  have h2 := (C3_vector_format_roundtrip 4 100 (by decide)).2 (by decide)
  revert h1 h2
  decide

/-! ## Claim C4: compound vector formatting -/

/-- One pass of the right-to-left loop in
`CompoundVectorVariable.format_value`. The triple is Python's
`(vstr_list, vstr_len, size_sum)`; the input pairs are
`zip(reversed(value), reversed(self.size))`. `headD` stands for Python's
`[0]` indexing, whose argument is nonempty in every reachable state. -/
def compoundBuild (check : Bool) :
    List (PyVal × Nat) → List (List Char) × Nat × Nat →
    Except PyErr (List (List Char) × Nat × Nat)
  | [], acc => .ok acc
  | (v, size) :: rest, (vstrList, vstrLen, sizeSum) =>
    match formatScalarValue v size check with
    | .error e => .error e
    | .ok vstr =>
      match vstrList with
      | [] => compoundBuild check rest (vstr :: vstrList, vstrLen + vstr.length, sizeSum + size)
      | left :: _ =>
        let leftc := left.headD ' '
        let rightc := vstr.headD ' '
        if 1 < vstr.length ∨
            ((rightc ≠ leftc ∨ leftc = '1') ∧ (rightc ≠ '0' ∨ leftc ≠ '1')) then
          let extendc := if leftc = '1' then '0' else leftc
          let extendSize := sizeSum - vstrLen
          compoundBuild check rest
            (vstr :: List.replicate extendSize extendc :: vstrList,
              vstrLen + extendSize + vstr.length, sizeSum + size)
        else
          compoundBuild check rest (vstrList, vstrLen, sizeSum + size)

/-- `CompoundVectorVariable.format_value(value, check)` for a variable with
size tuple `sizes` and identifier `ident`. -/
def compoundFormatValue (sizes : List Nat) (ident : List Char)
    (value : List PyVal) (check : Bool) : Except PyErr (List Char) :=
  if value.length ≠ sizes.length then
    .error (.valueError ("Compound value must match size arity".toList))
  else
    match compoundBuild check (value.reverse.zip sizes.reverse) ([], 0, 0) with
    | .error e => .error e
    | .ok (vstrList, _, _) =>
      .ok ('b' :: (vstrList.flatten ++ (' ' :: ident)))

/-- Modelled from the spec: VCD left-extension of a value string to the
declared width (a leading `'1'` extends with `'0'`; any other leading
character extends with itself). This is the decoding counterpart of the
writer's minimal-width rendering. -/
def vcdLeftExtend (s : List Char) (width : Nat) : List Char :=
  match s with
  | [] => []
  | c :: _ => List.replicate (width - s.length) (if c = '1' then '0' else c) ++ s

/-- Modelled from the spec: split a full-width compound value string at the
known per-field widths (most significant field first). -/
def splitWidths : List Nat → List Char → List (List Char)
  | [], _ => []
  | w :: ws, s => s.take w :: splitWidths ws (s.drop w)

/-- The full `s`-bit pattern of field value `v`: the minimal rendering
zero-extended to the field width. -/
def fieldBits (v : Int) (s : Nat) : List Char :=
  List.replicate (s - (natToBin (imageNat v s)).length) '0' ++ natToBin (imageNat v s)

theorem natToBin_head (m : Nat) :
    ∃ t, natToBin m = (if m = 0 then '0' else '1') :: t := by
  by_cases h : m = 0
  · subst h
    exact ⟨[], by decide⟩
  · simp only [h, if_false]
    rw [natToBin, toBase]
    simp only [h, if_false]
    obtain ⟨d, rest, hd1, hd2, heq⟩ :=
      toBaseAux_leading 2 decDigit (by decide) m m (by omega) (le_refl m)
    have hd : d = 1 := by omega
    subst hd
    exact ⟨rest, by rw [heq]; rfl⟩

theorem natToBin_ext_char (m : Nat) :
    (if (natToBin m).headD ' ' = '1' then '0' else (natToBin m).headD ' ') = '0' := by
  obtain ⟨t, ht⟩ := natToBin_head m
  rw [ht]
  by_cases h : m = 0
  · simp only [h, if_true, List.headD_cons]
    decide
  · simp only [h, if_false, List.headD_cons]
    decide

theorem binToNat_append (x y : List Char) :
    binToNat (x ++ y) = binToNat x * 2 ^ y.length + binToNat y :=
  ofBase_append 2 _ x y

theorem binToNat_replicate_zero (k : Nat) : binToNat (List.replicate k '0') = 0 := by
  induction k with
  | zero => rfl
  | succ k ih =>
    rw [List.replicate_succ]
    have h0 : binToNat ('0' :: List.replicate k '0') =
        binToNat (List.replicate k '0') := by
      simp only [binToNat, ofBase, List.foldl_cons]
      have : (2 * 0 + if ('0' : Char) = '1' then 1 else 0) = 0 := by decide
      rw [this]
    rw [h0, ih]

theorem binToNat_zero_extend (k : Nat) (x : List Char) :
    binToNat (List.replicate k '0' ++ x) = binToNat x := by
  rw [binToNat_append, binToNat_replicate_zero]
  simp

theorem imageNat_lt (v : Int) (s : Nat) (hs : 1 ≤ s)
    (h1 : -(2 ^ (s - 1) : Int) ≤ v) (h2 : v < 2 ^ s) :
    imageNat v s < 2 ^ s := by
  have hc : ((2 ^ s : Nat) : Int) = 2 ^ s := by push_cast; ring
  have h2n : (2 : Int) ^ s = 2 ^ (s - 1) * 2 := by
    conv_lhs => rw [show s = (s - 1) + 1 by omega]
    rw [pow_succ]
  have hposh : (0 : Int) < 2 ^ (s - 1) := by positivity
  rw [imageNat]
  split_ifs with hv <;> omega

theorem natToBin_imageNat_length_le (v : Int) (s : Nat) (hs : 1 ≤ s)
    (h1 : -(2 ^ (s - 1) : Int) ≤ v) (h2 : v < 2 ^ s) :
    (natToBin (imageNat v s)).length ≤ s :=
  natToBin_length_le _ s (by omega) (imageNat_lt v s hs h1 h2)

theorem fieldBits_length (v : Int) (s : Nat) (hs : 1 ≤ s)
    (h1 : -(2 ^ (s - 1) : Int) ≤ v) (h2 : v < 2 ^ s) :
    (fieldBits v s).length = s := by
  rw [fieldBits, List.length_append, List.length_replicate]
  have := natToBin_imageNat_length_le v s hs h1 h2
  omega

theorem binToNat_fieldBits (v : Int) (s : Nat) :
    binToNat (fieldBits v s) = imageNat v s := by
  rw [fieldBits, binToNat_zero_extend, binToNat_natToBin]

theorem fieldBits_zero (v : Int) (s : Nat) (hs : 1 ≤ s)
    (h : imageNat v s = 0) : fieldBits v s = List.replicate s '0' := by
  have e : natToBin 0 = ['0'] := rfl
  rw [fieldBits, h, e]
  rw [← List.replicate_succ']
  congr 1
  simp only [List.length_singleton]
  omega

theorem fields_append_one (done : List (Int × Nat)) (p : Int × Nat) :
    (((done ++ [p]).reverse.map fun q => fieldBits q.1 q.2).flatten) =
      fieldBits p.1 p.2 ++
        ((done.reverse.map fun q => fieldBits q.1 q.2).flatten) := by
  rw [List.reverse_append]
  simp

/-- Invariant of the right-to-left build loop: `done` is the list of
(least-significant-first) fields already folded in; the accumulated string,
left-extended to the bits consumed so far, is exactly the concatenation of
the full field bit patterns. -/
def GoodState (done : List (Int × Nat)) (vstrList : List (List Char))
    (vstrLen sizeSum : Nat) : Prop :=
  sizeSum = (done.map Prod.snd).sum ∧
  vstrLen = vstrList.flatten.length ∧
  vstrLen ≤ sizeSum ∧
  ((done = [] ∧ vstrList = []) ∨
    (∃ hd tl, vstrList = hd :: tl ∧ hd ≠ [] ∧
      (hd.headD ' ' = '0' ∨ hd.headD ' ' = '1') ∧
      vcdLeftExtend vstrList.flatten sizeSum =
        ((done.reverse.map fun p => fieldBits p.1 p.2).flatten)))

theorem vcdLeftExtend_cons (c : Char) (t : List Char) (w : Nat) :
    vcdLeftExtend (c :: t) w =
      List.replicate (w - (c :: t).length) (if c = '1' then '0' else c) ++
        (c :: t) := rfl

/-- Left extension of any string with a binary head uses `'0'`. -/
theorem vcdLeftExtend_binary_head (J : List Char) (w : Nat) (c : Char)
    (r : List Char) (hJ : J = c :: r) (hch : c = '0' ∨ c = '1') :
    vcdLeftExtend J w = List.replicate (w - J.length) '0' ++ J := by
  subst hJ
  rw [vcdLeftExtend_cons]
  have h : (if c = '1' then '0' else c) = '0' := by
    rcases hch with h | h <;> rw [h] <;> decide
  rw [h]

theorem vcdLeftExtend_natToBin_append (mm w : Nat) (x : List Char) :
    vcdLeftExtend (natToBin mm ++ x) w =
      List.replicate (w - (natToBin mm ++ x).length) '0' ++ (natToBin mm ++ x) := by
  obtain ⟨t, ht⟩ := natToBin_head mm
  have hext := natToBin_ext_char mm
  rw [ht] at hext
  simp only [List.headD_cons] at hext
  rw [ht, List.cons_append, vcdLeftExtend_cons, hext, ← List.cons_append, ← ht]

theorem vcdLeftExtend_natToBin (mm w : Nat) :
    vcdLeftExtend (natToBin mm) w =
      List.replicate (w - (natToBin mm).length) '0' ++ natToBin mm := by
  have h := vcdLeftExtend_natToBin_append mm w []
  simpa using h

theorem compoundBuild_spec (rps : List (Int × Nat)) :
    ∀ (done : List (Int × Nat)) (vstrList : List (List Char)) (vstrLen sizeSum : Nat),
    GoodState done vstrList vstrLen sizeSum →
    (∀ p ∈ rps, 1 ≤ p.2 ∧ -(2 ^ (p.2 - 1) : Int) ≤ p.1 ∧ p.1 < 2 ^ p.2) →
    ∃ vstrList' vstrLen' sizeSum',
      compoundBuild true (rps.map fun p => (PyVal.int p.1, p.2))
        (vstrList, vstrLen, sizeSum) = .ok (vstrList', vstrLen', sizeSum') ∧
      GoodState (done ++ rps) vstrList' vstrLen' sizeSum' := by
  induction rps with
  | nil =>
    intro done L n m hg _
    exact ⟨L, n, m, rfl, by simpa using hg⟩
  | cons p rest ih =>
    obtain ⟨v, s⟩ := p
    intro done L n m hg hvalid
    obtain ⟨hs, h1, h2⟩ := hvalid (v, s) (List.mem_cons_self _ _)
    have hvrest : ∀ q ∈ rest, 1 ≤ q.2 ∧ -(2 ^ (q.2 - 1) : Int) ≤ q.1 ∧ q.1 < 2 ^ q.2 :=
      fun q hq => hvalid q (List.mem_cons_of_mem _ hq)
    have hfmt := formatScalarValue_int_ok s v hs h1 h2
    have hvstr_ne : natToBin (imageNat v s) ≠ [] := natToBin_ne_nil _
    have hvstr_len : (natToBin (imageNat v s)).length ≤ s :=
      natToBin_imageNat_length_le v s hs h1 h2
    obtain ⟨t0, ht0⟩ := natToBin_head (imageNat v s)
    have hvhead : (natToBin (imageNat v s)).headD ' ' = '0' ∨
        (natToBin (imageNat v s)).headD ' ' = '1' := by
      rw [ht0, List.headD_cons]
      by_cases h0 : imageNat v s = 0
      · left; rw [if_pos h0]
      · right; rw [if_neg h0]
    obtain ⟨hI1, hI2, hI3, hI4⟩ := hg
    rcases hI4 with ⟨hdone, hLnil⟩ | ⟨hd, tl, hLcons, hhdne, hhdch, hI6⟩
    · -- first field: the accumulator list is empty
      subst hLnil; subst hdone
      have hm0 : m = 0 := by simpa using hI1
      have hn0 : n = 0 := by simpa using hI2
      subst hm0; subst hn0
      rw [List.map_cons]
      have hstep :
          compoundBuild true
            ((PyVal.int v, s) :: rest.map fun q => (PyVal.int q.1, q.2)) ([], 0, 0) =
          compoundBuild true (rest.map fun q => (PyVal.int q.1, q.2))
            ([natToBin (imageNat v s)], 0 + (natToBin (imageNat v s)).length, 0 + s) := by
        simp only [compoundBuild, hfmt]
      rw [hstep]
      have hgood : GoodState [(v, s)] [natToBin (imageNat v s)]
          (0 + (natToBin (imageNat v s)).length) (0 + s) := by
        refine ⟨by simp, by simp, by simpa using hvstr_len, Or.inr ?_⟩
        refine ⟨natToBin (imageNat v s), [], rfl, hvstr_ne, hvhead, ?_⟩
        have hflat : ([natToBin (imageNat v s)] : List (List Char)).flatten =
            natToBin (imageNat v s) := by simp
        rw [hflat, vcdLeftExtend_natToBin]
        simp only [List.reverse_cons, List.reverse_nil, List.nil_append,
          List.map_cons, List.map_nil, List.flatten_cons, List.flatten_nil,
          List.append_nil]
        rw [show 0 + s = s by omega]
        rfl
      obtain ⟨L', n', m', heq, hg'⟩ := ih [(v, s)] [natToBin (imageNat v s)]
        (0 + (natToBin (imageNat v s)).length) (0 + s) hgood hvrest
      exact ⟨L', n', m', heq, by simpa using hg'⟩
    · -- subsequent field: list is hd :: tl with binary head
      subst hLcons
      rw [List.map_cons]
      obtain ⟨hc, hr, hhd⟩ := List.exists_cons_of_ne_nil hhdne
      have hcc : hd.headD ' ' = hc := by rw [hhd]; rfl
      have hext_hd : (if hd.headD ' ' = '1' then '0' else hd.headD ' ') = '0' := by
        rcases hhdch with h | h <;> rw [h] <;> decide
      have hch_hc : hc = '0' ∨ hc = '1' := by
        rw [hcc] at hhdch
        exact hhdch
      have hJlen : (hd :: tl).flatten.length = n := hI2.symm
      have hJlen' : hd.length + tl.flatten.length = n := by
        rw [← hJlen]
        simp
      have hJhead : (hd :: tl).flatten = hc :: (hr ++ tl.flatten) := by
        rw [List.flatten_cons, hhd]
        rfl
      have hI6' : List.replicate (m - n) '0' ++ (hd :: tl).flatten =
          ((done.reverse.map fun q => fieldBits q.1 q.2).flatten) := by
        rw [← hI6, vcdLeftExtend_binary_head _ m hc _ hJhead hch_hc, hJlen]
      by_cases hcond : 1 < (natToBin (imageNat v s)).length ∨
          (((natToBin (imageNat v s)).headD ' ' ≠ hd.headD ' ' ∨ hd.headD ' ' = '1') ∧
            ((natToBin (imageNat v s)).headD ' ' ≠ '0' ∨ hd.headD ' ' ≠ '1'))
      · -- insertion: pad the old string to `m` bits, put the new field in front
        have hstep :
            compoundBuild true
              ((PyVal.int v, s) :: rest.map fun q => (PyVal.int q.1, q.2))
              (hd :: tl, n, m) =
            compoundBuild true (rest.map fun q => (PyVal.int q.1, q.2))
              (natToBin (imageNat v s) :: List.replicate (m - n) '0' :: hd :: tl,
                n + (m - n) + (natToBin (imageNat v s)).length, m + s) := by
          simp only [compoundBuild, hfmt]
          rw [if_pos hcond, hext_hd]
        rw [hstep]
        have hgood : GoodState (done ++ [(v, s)])
            (natToBin (imageNat v s) :: List.replicate (m - n) '0' :: hd :: tl)
            (n + (m - n) + (natToBin (imageNat v s)).length) (m + s) := by
          refine ⟨by simp [hI1], ?_, by omega, Or.inr ?_⟩
          · simp only [List.flatten_cons, List.length_append, List.length_replicate]
            omega
          · refine ⟨natToBin (imageNat v s), _, rfl, hvstr_ne, hvhead, ?_⟩
            rw [fields_append_one]
            have hflat : (natToBin (imageNat v s) :: List.replicate (m - n) '0' ::
                hd :: tl).flatten =
                natToBin (imageNat v s) ++
                  (List.replicate (m - n) '0' ++ (hd :: tl).flatten) := by
              simp
            rw [hflat, vcdLeftExtend_natToBin_append]
            have hlen2 : (natToBin (imageNat v s) ++
                (List.replicate (m - n) '0' ++ (hd :: tl).flatten)).length =
                (natToBin (imageNat v s)).length + (m - n) + n := by
              simp only [List.length_append, List.length_replicate, hJlen]
              omega
            rw [hlen2]
            have harith : m + s - ((natToBin (imageNat v s)).length + (m - n) + n) =
                s - (natToBin (imageNat v s)).length := by omega
            rw [harith, hI6', ← List.append_assoc]
            rfl
        obtain ⟨L', n', m', heq, hg'⟩ := ih (done ++ [(v, s)]) _ _ _ hgood hvrest
        refine ⟨L', n', m', heq, ?_⟩
        rw [List.append_assoc] at hg'
        simpa using hg'
      · -- skipped: the new field is a lone zero absorbed by left-extension
        have himg : imageNat v s = 0 := by
          by_contra h0
          rw [if_neg h0] at ht0
          apply hcond
          right
          have hrh : (natToBin (imageNat v s)).headD ' ' = '1' := by
            rw [ht0]; rfl
          constructor
          · by_cases hl : hd.headD ' ' = '1'
            · exact Or.inr hl
            · left
              rw [hrh]
              exact fun he => hl he.symm
          · left
            rw [hrh]
            decide
        have hstep :
            compoundBuild true
              ((PyVal.int v, s) :: rest.map fun q => (PyVal.int q.1, q.2))
              (hd :: tl, n, m) =
            compoundBuild true (rest.map fun q => (PyVal.int q.1, q.2))
              (hd :: tl, n, m + s) := by
          simp only [compoundBuild, hfmt]
          rw [if_neg hcond]
        rw [hstep]
        have hgood : GoodState (done ++ [(v, s)]) (hd :: tl) n (m + s) := by
          refine ⟨by simp [hI1], hI2, by omega, Or.inr ?_⟩
          refine ⟨hd, tl, rfl, hhdne, hhdch, ?_⟩
          rw [fields_append_one]
          rw [vcdLeftExtend_binary_head _ (m + s) hc _ hJhead hch_hc, hJlen]
          have harith : m + s - n = s + (m - n) := by omega
          rw [harith, List.replicate_add, List.append_assoc, hI6']
          rw [fieldBits_zero v s hs himg]
        obtain ⟨L', n', m', heq, hg'⟩ := ih (done ++ [(v, s)]) _ _ _ hgood hvrest
        refine ⟨L', n', m', heq, ?_⟩
        rw [List.append_assoc] at hg'
        simpa using hg'
theorem zip_reverse_eq {α β : Type} (l₁ : List α) (l₂ : List β)
    (h : l₁.length = l₂.length) :
    l₁.reverse.zip l₂.reverse = (l₁.zip l₂).reverse := by
  induction l₁ generalizing l₂ with
  | nil => simp
  | cons a as ih =>
    cases l₂ with
    | nil => simp at h
    | cons b bs =>
      have h' : as.length = bs.length := by simpa using h
      simp only [List.reverse_cons]
      rw [List.zip_append (by simp [h']), ih bs h']
      simp

theorem splitWidths_fields (ps : List (Int × Nat))
    (h : ∀ p ∈ ps, (fieldBits p.1 p.2).length = p.2) :
    splitWidths (ps.map Prod.snd) ((ps.map fun p => fieldBits p.1 p.2).flatten) =
      ps.map fun p => fieldBits p.1 p.2 := by
  induction ps with
  | nil => rfl
  | cons p rest ih =>
    simp only [List.map_cons, List.flatten_cons, splitWidths]
    rw [List.take_left' (h p (List.mem_cons_self _ _)),
      List.drop_left' (h p (List.mem_cons_self _ _)),
      ih (fun q hq => h q (List.mem_cons_of_mem _ hq))]

/-- Full behaviour of `CompoundVectorVariable.format_value` on in-range
integer field tuples: it succeeds, its value string fits in the total
width, and VCD left-extension of the value string restores the
concatenation of the per-field bit patterns. -/
theorem compoundFormatValue_spec (ident : List Char) (vs : List Int)
    (ss : List Nat) (hlen : vs.length = ss.length)
    (hvalid : ∀ p ∈ vs.zip ss,
      1 ≤ p.2 ∧ -(2 ^ (p.2 - 1) : Int) ≤ p.1 ∧ p.1 < 2 ^ p.2) :
    ∃ valueStr,
      compoundFormatValue ss ident (vs.map PyVal.int) true =
        .ok ('b' :: (valueStr ++ ' ' :: ident)) ∧
      valueStr.length ≤ ss.sum ∧
      vcdLeftExtend valueStr ss.sum =
        ((vs.zip ss).map fun p => fieldBits p.1 p.2).flatten := by
  have hrps : (vs.map PyVal.int).reverse.zip ss.reverse =
      ((vs.zip ss).reverse).map fun p => (PyVal.int p.1, p.2) := by
    rw [← List.map_reverse, List.zip_map_left, zip_reverse_eq vs ss hlen]
    have hfun : (Prod.map PyVal.int id : Int × Nat → PyVal × Nat) =
        fun p => (PyVal.int p.1, p.2) := funext fun ⟨a, b⟩ => rfl
    rw [hfun, List.map_reverse]
  have hvalid' : ∀ p ∈ (vs.zip ss).reverse,
      1 ≤ p.2 ∧ -(2 ^ (p.2 - 1) : Int) ≤ p.1 ∧ p.1 < 2 ^ p.2 := by
    intro p hp
    exact hvalid p (List.mem_reverse.mp hp)
  have hgood0 : GoodState [] [] 0 0 := ⟨rfl, rfl, le_refl 0, Or.inl ⟨rfl, rfl⟩⟩
  obtain ⟨L', n', m', heq, hI1', hI2', hI3', hI4'⟩ :=
    compoundBuild_spec ((vs.zip ss).reverse) [] [] 0 0 hgood0 hvalid'
  have hsum : m' = ss.sum := by
    rw [hI1']
    simp only [List.nil_append, List.map_reverse, List.sum_reverse]
    rw [List.map_snd_zip vs ss (by omega)]
  have harity : ¬((vs.map PyVal.int).length ≠ ss.length) := by
    simp [hlen]
  refine ⟨L'.flatten, ?_, ?_, ?_⟩
  · rw [compoundFormatValue, if_neg harity, hrps, heq]
  · rw [← hsum, ← hI2']
    exact hI3'
  · rcases hI4' with ⟨hdn, hLn⟩ | ⟨hd, tl, hLc, hne, hch, hI6⟩
    · have hzn : vs.zip ss = [] := by
        have h2 := congrArg List.reverse hdn
        simpa using h2.symm
      rw [hLn, hzn]
      have hss : ss.sum = 0 := by rw [← hsum, hI1', hdn]; rfl
      rw [hss]
      rfl
    · rw [← hsum]
      rw [List.nil_append] at hI6
      simpa using hI6

/-- C4 (amended): for every compound size tuple (each field width ≥ 1) and
every tuple of per-field in-range integers, `CompoundVectorVariable.format_value`
produces `b<bits> <ident>` where `<bits>` is no longer than the total
width, and VCD left-extension of `<bits>` to the total width followed by
splitting at the known field boundaries recovers each field's full bit
pattern; re-parsing a field pattern as a two's-complement number of its
width recovers the field value `v` exactly when `v < 2^(s-1)`, and `v - 2^s`
otherwise (upper-half values share bit patterns with negative values, so
exact recovery of every in-range tuple is impossible). In particular
size `(8,4,1)` with values `(0,0,1)` gives `"b1 v"` and with `(15,0,1)`
gives `"b111100001 v"`. -/
theorem C4_compound_format_minimal (ident : List Char) (vs : List Int)
    (ss : List Nat) (hlen : vs.length = ss.length)
    (hvalid : ∀ p ∈ vs.zip ss,
      1 ≤ p.2 ∧ -(2 ^ (p.2 - 1) : Int) ≤ p.1 ∧ p.1 < 2 ^ p.2) :
    ∃ valueStr,
      compoundFormatValue ss ident (vs.map PyVal.int) true =
        .ok ('b' :: (valueStr ++ ' ' :: ident)) ∧
      valueStr.length ≤ ss.sum ∧
      splitWidths ss (vcdLeftExtend valueStr ss.sum) =
        (vs.zip ss).map (fun p => fieldBits p.1 p.2) ∧
      ∀ p ∈ vs.zip ss, twosComplementParse (fieldBits p.1 p.2) p.2 =
        (if p.1 < 2 ^ (p.2 - 1) then p.1 else p.1 - 2 ^ p.2) := by
  obtain ⟨valueStr, h1, h2, h3⟩ := compoundFormatValue_spec ident vs ss hlen hvalid
  refine ⟨valueStr, h1, h2, ?_, ?_⟩
  · rw [h3]
    have hfields := splitWidths_fields (vs.zip ss) (fun p hp => by
      obtain ⟨hs, hl, hr⟩ := hvalid p hp
      exact fieldBits_length p.1 p.2 hs hl hr)
    rw [List.map_snd_zip vs ss (by omega)] at hfields
    exact hfields
  · intro p hp
    obtain ⟨hs, hl, hr⟩ := hvalid p hp
    exact twosComplementParse_bits _ p.2 p.1 hs hl hr (binToNat_fieldBits p.1 p.2)

/-- C4 counterexample: with size `(1,1)` and in-range values `(1,0)`, the
formatter emits `"b10 v"`; splitting the left-extended value string at the
field boundaries gives the patterns `"1"` and `"0"`, and re-parsing the
first field (as a width-1 two's-complement number, the reading under which
negative field values round-trip) yields `-1`, not the original `1`: exact
recovery of every in-range field is impossible. -/
theorem C4_counterexample :
    ((1 : Int) < 2 ^ 1 ∧ -(2 ^ (1 - 1) : Int) ≤ 1) ∧
    compoundFormatValue [1, 1] ['v'] [PyVal.int 1, PyVal.int 0] true =
      .ok "b10 v".toList ∧
    splitWidths [1, 1] (vcdLeftExtend "10".toList 2) = [['1'], ['0']] ∧
    twosComplementParse ['1'] 1 = -1 := by decide

/-- Witness for C4: the two example tuples from the claim. The general
theorem is applied at both inputs; the resulting strings are the claimed
`"b1 v"` and `"b111100001 v"`. -/
theorem C4_compound_format_minimal_witness :
    compoundFormatValue [8, 4, 1] ['v']
      ([0, 0, 1].map PyVal.int) true = .ok "b1 v".toList ∧
    compoundFormatValue [8, 4, 1] ['v']
      ([15, 0, 1].map PyVal.int) true = .ok "b111100001 v".toList := by
  obtain ⟨s1, h1, -, -, -⟩ :=
    C4_compound_format_minimal ['v'] [0, 0, 1] [8, 4, 1] (by decide) (by decide)
  obtain ⟨s2, h2, -, -, -⟩ :=
    C4_compound_format_minimal ['v'] [15, 0, 1] [8, 4, 1] (by decide) (by decide)
  exact ⟨by decide, by decide⟩

/-! ## The writer: data model -/

/-- The `Variable` subclass chosen by `register_var` (the Python class is
the dispatch tag for `format_value` / `dump` / `dump_off`). -/
inductive VarKind where
  | scalar
  | event
  | string
  | real
  | vector
  | compound
deriving DecidableEq, Repr

/-- A variable's `size`: `int` or tuple-of-int. -/
inductive VarSize where
  | single (n : Nat)
  | compound (ns : List Nat)
deriving DecidableEq, Repr

/-- `vcd.writer.Variable` (`__slots__ = ident, type, size, value`), plus the
class tag. -/
structure Variable where
  ident : List Char
  type : List Char
  size : VarSize
  value : PyVal
  kind : VarKind
deriving DecidableEq, Repr

/-- `format_value` of the variable's class. Notes on the embedding:
the scalar check `len(value) != 1 or value not in '01xzXZ'` is modelled as
`length ≠ 1 ∨ head ∉ scalarChars`, equivalent as a whole (substring and
head membership agree on one-character strings and the first disjunct
covers the rest); `'r{:.16g}'` of a Python int is its decimal rendering
(exact for magnitudes below `10^16`; larger reals are outside the
embedding); `{:.16g}` of a non-numeric raises inside `format` when
`check=False`, modelled as the value error it is. -/
def Variable.formatValue (var : Variable) (value : PyVal) (check : Bool) :
    Except PyErr (List Char) :=
  match var.kind with
  | .scalar =>
    match value with
    | .str s =>
      if check ∧ (s.length ≠ 1 ∨ ¬ scalarChars.contains (s.headD ' ')) then
        .error (.valueError ("Invalid scalar value".toList))
      else .ok (s ++ var.ident)
    | .none => .ok ('z' :: var.ident)
    | other =>
      if other.truthy then .ok ('1' :: var.ident) else .ok ('0' :: var.ident)
  | .event =>
    if value.truthy then .ok ('1' :: var.ident)
    else .error (.valueError ("invalid event value".toList))
  | .string =>
    let v' := match value with | .none => PyVal.str [] | v => v
    match v' with
    | .str s =>
      if check ∧ s.contains ' ' then
        .error (.valueError ("Invalid string value".toList))
      else .ok ('s' :: (s ++ (' ' :: var.ident)))
    | other =>
      if check then .error (.valueError ("Invalid string value".toList))
      else .ok ('s' :: (pyStr other ++ (' ' :: var.ident)))
  | .real =>
    match value with
    | .int i => .ok ('r' :: (intToDec i ++ (' ' :: var.ident)))
    | _ =>
      if check then .error (.valueError ("Invalid real value".toList))
      else .error (.valueError ("Unknown format code".toList))
  | .vector =>
    match var.size with
    | .single n =>
      (formatScalarValue value n check).map
        (fun vstr => 'b' :: (vstr ++ (' ' :: var.ident)))
    | .compound _ =>
      -- unreachable: register_var gives vector variables a single size
      .error (.typeError ("vector variable with compound size".toList))
  | .compound =>
    match var.size with
    | .compound ns =>
      match value with
      | .tup vs => compoundFormatValue ns var.ident vs check
      | .str s =>
        -- Python's len/zip iterate a str value by character
        compoundFormatValue ns var.ident (s.map fun c => PyVal.str [c]) check
      | _ => .error (.typeError ("object has no len()".toList))
    | .single _ =>
      -- unreachable: register_var gives compound variables a tuple size
      .error (.typeError ("compound variable with single size".toList))

/-- `Variable.dump` (overridden to `None` only by `EventVariable`). -/
def Variable.dump (var : Variable) (check : Bool) :
    Except PyErr (Option (List Char)) :=
  match var.kind with
  | .event => .ok Option.none
  | _ => (var.formatValue var.value check).map Option.some

/-- `Variable.dump_off`: forced-unknown restatement. Only the scalar,
vector and compound classes override the base's `None`. The `check=False`
formats here cannot fail, so the error channel is dropped (`toOption`). -/
def Variable.dumpOff (var : Variable) : Option (List Char) :=
  match var.kind with
  | .scalar => some ('x' :: var.ident)
  | .vector => (var.formatValue (.str ['x']) false).toOption
  | .compound =>
    match var.size with
    | .compound ns =>
      (var.formatValue (.tup (List.replicate ns.length (PyVal.str ['x']))) false).toOption
    | .single _ => Option.none
  | _ => Option.none

/-! ## The writer: state and helpers -/

/-- `vcd.writer.VCDWriter` state. The output file is the accumulated
`output` characters; `dateStr`/`timescaleStr`/`commentStr`/`versionStr`
are the `_header_keywords` entries. -/
structure VCDWriter where
  dateStr : List Char
  timescaleStr : List Char
  commentStr : List Char
  versionStr : List Char
  defaultScopeType : List Char
  scopeSep : List Char
  checkValues : Bool
  registering : Bool
  closed : Bool
  dumping : Bool
  nextVarId : Nat
  scopeVarStrs : List (List (List Char) × List (List Char))
  scopeVarNames : List (List (List Char) × List (List Char))
  scopeTypes : List (List (List Char) × List Char)
  vars : List Variable
  timestamp : Int
  lastDumpedTs : Option Int
  output : List Char
deriving DecidableEq, Repr

/-- `VCDWriter.__init__`. `timescale` is the validated `"{num} {unit}"`
string `_check_timescale` produces (`"1 us"` by default); `date` must be
given explicitly (Python's default is the wall clock, outside the
embedding). -/
def initWriter (date timescale comment version defaultScopeType scopeSep : List Char)
    (checkValues : Bool) (initTimestamp : Int) : VCDWriter :=
  { dateStr := date, timescaleStr := timescale, commentStr := comment,
    versionStr := version, defaultScopeType := defaultScopeType,
    scopeSep := scopeSep, checkValues := checkValues,
    registering := true, closed := false, dumping := true, nextVarId := 0,
    scopeVarStrs := [], scopeVarNames := [], scopeTypes := [], vars := [],
    timestamp := initTimestamp, lastDumpedTs := Option.none, output := [] }

/-- `VCDWriter.SCOPE_TYPES`. -/
def SCOPE_TYPES : List (List Char) :=
  ["begin", "fork", "function", "module", "task"].map String.toList

/-- `VCDWriter.VAR_TYPES`. -/
def VAR_TYPES : List (List Char) :=
  ["event", "integer", "parameter", "real", "realtime", "reg", "supply0",
   "supply1", "time", "tri", "triand", "trior", "trireg", "tri0", "tri1",
   "wand", "wire", "wor", "string"].map String.toList

/-- Dict lookup (`d[k]` / `d.get(k)`) on an insertion-ordered assoc list. -/
def alistGet {K V : Type} [DecidableEq K] (m : List (K × V)) (k : K) : Option V :=
  (m.find? fun p => decide (p.1 = k)).map Prod.snd

/-- `d.setdefault(k, v)`: append the default when the key is absent. -/
def alistSetdefault {K V : Type} [DecidableEq K] (m : List (K × V)) (k : K)
    (v : V) : List (K × V) :=
  if (m.find? fun p => decide (p.1 = k)).isSome then m else m ++ [(k, v)]

/-- In-place mutation of the value at an existing key. -/
def alistUpdate {K V : Type} [DecidableEq K] (m : List (K × V)) (k : K)
    (f : V → V) : List (K × V) :=
  m.map fun p => if p.1 = k then (p.1, f p.2) else p

/-- `d.setdefault(k, []).append(v)`. -/
def alistAppendAt {K V : Type} [DecidableEq K] (m : List (K × List V)) (k : K)
    (v : V) : List (K × List V) :=
  if (alistGet m k).isSome then alistUpdate m k (fun l => l ++ [v])
  else m ++ [(k, [v])]

/-- `d[k] = v`. -/
def alistSet {K V : Type} [DecidableEq K] (m : List (K × V)) (k : K) (v : V) :
    List (K × V) :=
  if (alistGet m k).isSome then alistUpdate m k (fun _ => v) else m ++ [(k, v)]

/-- Python `str` `<` (lexicographic by code point). -/
def strLt : List Char → List Char → Bool
  | [], [] => false
  | [], _ :: _ => true
  | _ :: _, [] => false
  | x :: xs, y :: ys =>
    if x.toNat < y.toNat then true
    else if y.toNat < x.toNat then false
    else strLt xs ys

/-- Python tuple-of-str `<`. -/
def scopeLt : List (List Char) → List (List Char) → Bool
  | [], [] => false
  | [], _ :: _ => true
  | _ :: _, [] => false
  | x :: xs, y :: ys =>
    if strLt x y then true
    else if strLt y x then false
    else scopeLt xs ys

/-- Insertion into a sorted list (for `sorted(...)` on distinct keys). -/
def insertByLt {α : Type} (lt : α → α → Bool) (x : α) : List α → List α
  | [] => [x]
  | y :: ys => if lt x y then x :: y :: ys else y :: insertByLt lt x ys

/-- Insertion sort; on the writer's distinct scope keys it computes the
same sequence as Python's `sorted`. -/
def sortByLt {α : Type} (lt : α → α → Bool) : List α → List α
  | [] => []
  | x :: xs => insertByLt lt x (sortByLt lt xs)

/-- `'\n'.join(...)`. -/
def joinNl : List (List Char) → List Char
  | [] => []
  | [l] => l
  | l :: rest => l ++ '\n' :: joinNl rest

/-- Lines of one header keyword block in `_gen_header`. -/
def genHeaderKeyword (kwname kwvalue : List Char) : List (List Char) :=
  if kwvalue.isEmpty then []
  else
    let lines := kwvalue.splitOn '\n'
    if lines.length = 1 then
      [kwname ++ (' ' :: lines.headD []) ++ " $end".toList]
    else
      [kwname] ++ lines.map (fun l => '\t' :: l) ++ ["$end".toList]

/-- Length of the common prefix of two scope tuples: the index of the first
difference found by `_gen_header`'s `zip_longest` walk. -/
def commonPrefixLen : List (List Char) → List (List Char) → Nat
  | a :: as_, b :: bs => if a = b then commonPrefixLen as_ bs + 1 else 0
  | _, _ => 0

/-- The `$scope`/`$var`/`$upscope` lines of `_gen_header` over the sorted
scope list, carrying `prev_scope`. (Python's inner `for ... else: assert`
is unreachable for the writer's distinct scope keys; the common-prefix
formulation is the reachable behaviour.) -/
def genScopeLines (defaultType : List Char)
    (scopeTypes : List (List (List Char) × List Char)) :
    List (List (List Char) × List (List Char)) → List (List Char) →
    List (List Char)
  | [], prev => prev.map fun _ => "$upscope $end".toList
  | (scope, varStrs) :: rest, prev =>
    let i := commonPrefixLen prev scope
    (List.replicate (prev.length - i) "$upscope $end".toList) ++
    ((List.range (scope.length - i)).map fun j =>
      let st := (alistGet scopeTypes (scope.take (i + j + 1))).getD defaultType
      "$scope ".toList ++ st ++ (' ' :: ((scope.get? (i + j)).getD [])) ++
        " $end".toList) ++
    varStrs ++ genScopeLines defaultType scopeTypes rest scope

/-- `VCDWriter._gen_header` (the sorted-keyword blocks, the scope tree,
`$enddefinitions`). -/
def genHeader (w : VCDWriter) : List (List Char) :=
  genHeaderKeyword "$comment".toList w.commentStr ++
  genHeaderKeyword "$date".toList w.dateStr ++
  genHeaderKeyword "$timescale".toList w.timescaleStr ++
  genHeaderKeyword "$version".toList w.versionStr ++
  genScopeLines w.defaultScopeType w.scopeTypes
    (sortByLt (fun p q => scopeLt p.1 q.1) w.scopeVarStrs) [] ++
  ["$enddefinitions $end".toList]

/-- `VCDWriter._set_timestamp`. -/
def setTimestamp (w : VCDWriter) (ts : Int) : VCDWriter × Except PyErr Unit :=
  if ts < w.timestamp then
    (w, .error (.phaseError ("Out of order timestamp".toList)))
  else if ts > w.timestamp then ({ w with timestamp := ts }, .ok ())
  else (w, .ok ())

/-- `VCDWriter._dump_timestamp`. -/
def dumpTimestamp (w : VCDWriter) : VCDWriter :=
  if (some w.timestamp ≠ w.lastDumpedTs ∧ w.dumping) ∨
      w.lastDumpedTs = Option.none then
    { w with
      lastDumpedTs := some w.timestamp
      output := w.output ++ ('#' :: intToDec w.timestamp) ++ ['\n'] }
  else w

/-- The value lines of `_dump_values`' loop (a raising `dump` keeps the
lines already written, like the exception propagating mid-loop). -/
def dumpVarsLoop (check : Bool) : List Variable → List Char × Option PyErr
  | [] => ([], Option.none)
  | var :: rest =>
    match var.dump check with
    | .error e => ([], some e)
    | .ok val =>
      let line := match val with
        | some str => if str.isEmpty then [] else str ++ ['\n']
        | Option.none => []
      match dumpVarsLoop check rest with
      | (out, err) => (line ++ out, err)

/-- `VCDWriter._dump_values`. -/
def dumpValues (w : VCDWriter) (keyword : List Char) :
    VCDWriter × Except PyErr Unit :=
  let w1 := { w with output := w.output ++ keyword ++ ['\n'] }
  match dumpVarsLoop w1.checkValues w1.vars with
  | (lines, Option.none) =>
    ({ w1 with output := w1.output ++ lines ++ "$end\n".toList }, .ok ())
  | (lines, some e) => ({ w1 with output := w1.output ++ lines }, .error e)

/-- `VCDWriter._finalize_registration`. -/
def finalizeRegistration (w : VCDWriter) : VCDWriter × Except PyErr Unit :=
  let w1 := { w with
    output := w.output ++ joinNl (genHeader w) ++ ['\n']
    scopeVarStrs := [] }
  let step : VCDWriter × Except PyErr Unit :=
    if w1.vars.isEmpty then (w1, .ok ())
    else dumpValues (dumpTimestamp w1) "$dumpvars".toList
  match step with
  | (w2, .error e) => (w2, .error e)
  | (w2, .ok _) =>
    ({ w2 with
      registering := false
      dateStr := []
      timescaleStr := []
      commentStr := []
      versionStr := []
      scopeTypes := []
      scopeVarNames := [] }, .ok ())

/-! ## The writer: operations -/

/-- `VCDWriter.set_scope_type` (scope given as a tuple; `None` types are
not modelled). -/
def setScopeType (w : VCDWriter) (scope : List (List Char))
    (scopeType : List Char) : VCDWriter × Except PyErr Unit :=
  if ¬ SCOPE_TYPES.contains scopeType then
    (w, .error (.valueError ("Invalid scope_type".toList)))
  else ({ w with scopeTypes := alistSet w.scopeTypes scope scopeType }, .ok ())

/-- `VCDWriter.register_var`. The scope is passed as a tuple (the
`Sequence` branch of `_get_scope_tuple`); on success the returned `Nat` is
the new variable's index into `vars` (the handle). -/
def registerVar (w : VCDWriter) (scope : List (List Char)) (name : List Char)
    (varType : List Char) (size : Option VarSize) (init : Option PyVal)
    (identOpt : Option (List Char)) : VCDWriter × Except PyErr Nat :=
  if w.closed then
    (w, .error (.phaseError ("Cannot register after close().".toList)))
  else if ¬ w.registering then
    (w, .error (.phaseError ("Cannot register after time 0.".toList)))
  else if ¬ VAR_TYPES.contains varType then
    (w, .error (.valueError ("Invalid var_type".toList)))
  else
    -- `setdefault` inserts an empty name set even when the call later fails
    let w1 := { w with scopeVarNames := alistSetdefault w.scopeVarNames scope [] }
    let names := (alistGet w1.scopeVarNames scope).getD []
    if names.contains name then
      (w1, .error (.keyError ("Duplicate var in scope".toList)))
    else
      let ident := identOpt.getD (natToHex w.nextVarId)
      let sizeRes : Except PyErr VarSize :=
        match size with
        | some sz => .ok sz
        | Option.none =>
          if varType = "integer".toList ∨ varType = "real".toList ∨
              varType = "realtime".toList then .ok (.single 64)
          else if varType = "event".toList ∨ varType = "string".toList then
            .ok (.single 1)
          else .error (.valueError ("Must supply size for var_type".toList))
      match sizeRes with
      | .error e => (w1, .error e)
      | .ok sz =>
        let varSize : Nat := match sz with | .single n => n | .compound ns => ns.sum
        let varStr : List Char :=
          "$var ".toList ++ varType ++ (' ' :: natToDec varSize) ++
            (' ' :: ident) ++ (' ' :: name) ++ " $end".toList
        let kindInit : VarKind × PyVal :=
          if varType = "string".toList then (.string, init.getD (.str []))
          else if varType = "event".toList then (.event, init.getD (.int 1))
          else if varType = "real".toList then (.real, init.getD (.int 0))
          else if sz = .single 1 then (.scalar, init.getD (.str ['x']))
          else match sz with
            | .compound ns =>
              (.compound, init.getD (.tup (List.replicate ns.length (.str ['x']))))
            | .single _ => (.vector, init.getD (.str ['x']))
        let var : Variable :=
          { ident := ident, type := varType, size := sz,
            value := kindInit.2, kind := kindInit.1 }
        match var.formatValue kindInit.2 true with
        | .error e => (w1, .error e)
        | .ok _ =>
          -- Only alter state after the initial value formats
          let w2 := { w1 with
            vars := w1.vars ++ [var],
            nextVarId := w1.nextVarId + 1,
            scopeVarStrs := alistAppendAt w1.scopeVarStrs scope varStr,
            scopeVarNames := alistAppendAt w1.scopeVarNames scope name }
          (w2, .ok w1.vars.length)

/-- The timestamp-advance block of `change` (the code `change` unrolls
from `_set_timestamp`, with the one-time finalization on a time advance
past the registration phase). -/
def changeAdvance (w : VCDWriter) (ts : Int) : VCDWriter × Except PyErr Unit :=
  if ts > w.timestamp then
    if w.registering then
      match finalizeRegistration w with
      | (wf, .error e) => (wf, .error e)
      | (wf, .ok _) => ({ wf with timestamp := ts }, .ok ())
    else ({ w with timestamp := ts }, .ok ())
  else (w, .ok ())

/-- `VCDWriter.change`. The variable handle is its index into `vars`
(handles only come from `registerVar`, so an out-of-range index is
unreachable). -/
def change (w : VCDWriter) (varIdx : Nat) (ts : Int) (value : PyVal) :
    VCDWriter × Except PyErr Unit :=
  if w.closed then
    (w, .error (.phaseError ("Cannot change value after close()".toList)))
  else
    match w.vars.get? varIdx with
    | Option.none => (w, .error (.typeError ("invalid variable handle".toList)))
    | some var =>
      -- Format value early to catch any errors before writing output.
      let valStrE : Except PyErr (List Char) :=
        if value ≠ var.value ∨ var.type = "event".toList then
          var.formatValue value w.checkValues
        else .ok []
      match valStrE with
      | .error e => (w, .error e)
      | .ok valStr =>
        -- Unrolled `_set_timestamp`, with finalization on a time advance
        if ts < w.timestamp then
          (w, .error (.phaseError ("Out of order timestamp".toList)))
        else
          match changeAdvance w ts with
          | (w1, .error e) => (w1, .error e)
          | (w1, .ok _) =>
            if valStr.isEmpty then (w1, .ok ())
            else
              let w2 := { w1 with
                vars := w1.vars.set varIdx { var with value := value } }
              if w2.dumping ∧ ¬ w2.registering then
                -- Unrolled `_dump_timestamp`
                if some w2.timestamp ≠ w2.lastDumpedTs then
                  ({ w2 with
                    lastDumpedTs := some w2.timestamp
                    output := w2.output ++ ('#' :: intToDec w2.timestamp) ++
                      ('\n' :: (valStr ++ ['\n'])) }, .ok ())
                else ({ w2 with output := w2.output ++ valStr ++ ['\n'] }, .ok ())
              else (w2, .ok ())

/-- The forced-unknown lines of `dump_off`'s loop. -/
def dumpOffLines (vars : List Variable) : List Char :=
  (vars.map fun var =>
    match var.dumpOff with
    | some str => if str.isEmpty then [] else str ++ ['\n']
    | Option.none => []).flatten

/-- `VCDWriter.dump_off`. -/
def dumpOff (w : VCDWriter) (ts : Int) : VCDWriter × Except PyErr Unit :=
  let fin : VCDWriter × Except PyErr Unit :=
    if w.registering then finalizeRegistration w else (w, .ok ())
  match fin with
  | (w1, .error e) => (w1, .error e)
  | (w1, .ok _) =>
    match setTimestamp w1 ts with
    | (w2, .error e) => (w2, .error e)
    | (w2, .ok _) =>
      if ¬ w2.dumping then (w2, .ok ())
      else
        let w3 := dumpTimestamp w2
        let w4 := { w3 with
          output := w3.output ++ "$dumpoff\n".toList ++
            dumpOffLines w3.vars ++ "$end\n".toList
          dumping := false }
        (w4, .ok ())

/-- `VCDWriter.dump_on`. -/
def dumpOn (w : VCDWriter) (ts : Int) : VCDWriter × Except PyErr Unit :=
  let fin : VCDWriter × Except PyErr Unit :=
    if w.registering then finalizeRegistration w else (w, .ok ())
  match fin with
  | (w1, .error e) => (w1, .error e)
  | (w1, .ok _) =>
    match setTimestamp w1 ts with
    | (w2, .error e) => (w2, .error e)
    | (w2, .ok _) =>
      if w2.dumping then (w2, .ok ())
      else dumpValues (dumpTimestamp { w2 with dumping := true }) "$dumpon".toList

/-- `VCDWriter.flush`. -/
def flush (w : VCDWriter) (ts : Option Int) : VCDWriter × Except PyErr Unit :=
  if w.closed then
    (w, .error (.phaseError ("Cannot flush() after close()".toList)))
  else
    let fin : VCDWriter × Except PyErr Unit :=
      if w.registering then finalizeRegistration w else (w, .ok ())
    match fin with
    | (w1, .error e) => (w1, .error e)
    | (w1, .ok _) =>
      match ts with
      | Option.none => (w1, .ok ())
      | some t =>
        match setTimestamp w1 t with
        | (w2, .error e) => (w2, .error e)
        | (w2, .ok _) => (dumpTimestamp w2, .ok ())

/-- `VCDWriter.close`. -/
def close (w : VCDWriter) (ts : Option Int) : VCDWriter × Except PyErr Unit :=
  if ¬ w.closed then
    match flush w ts with
    | (w1, .error e) => (w1, .error e)
    | (w1, .ok _) => ({ w1 with closed := true }, .ok ())
  else (w, .ok ())

/-! ## Concrete writer sessions used by claim instances -/

/-- A fresh writer (empty date/comment/version, default settings). -/
def wFresh : VCDWriter :=
  initWriter [] "1 us".toList [] [] "module".toList ".".toList true 0

/-- `wFresh` after registering a 1-bit wire `a` in scope `top`
(still in the registration phase; the variable's index is 0). -/
def wReg1 : VCDWriter :=
  (registerVar wFresh ["top".toList] "a".toList "wire".toList
    (some (VarSize.single 1)) Option.none Option.none).1

/-- `wReg1` after `change(a, 1, 1)`: finalized (header and `$dumpvars`
emitted), timestamp 1, variable 0 holding `1`. -/
def wDump1 : VCDWriter := (change wReg1 0 1 (PyVal.int 1)).1

/-! ## Claim C10: value validation precedes the timestamp check -/

/-- C10: in `change()` on an open writer, formatting (and hence
validation) of a genuinely new value happens before the timestamp check:
when the value differs from the recorded value and its formatting fails,
the call returns that error — regardless of the timestamp, even one in the
past — and the writer (timestamp, phase, output, everything) is unchanged. -/
theorem C10_validation_precedes_timestamp (w : VCDWriter) (i : Nat)
    (var : Variable) (ts : Int) (value : PyVal) (e : PyErr)
    (hvar : w.vars.get? i = some var) (hclosed : w.closed = false)
    (hdiff : value ≠ var.value)
    (hfmt : var.formatValue value w.checkValues = .error e) :
    change w i ts value = (w, .error e) := by
  have hcond : (value ≠ var.value ∨ var.type = "event".toList) := Or.inl hdiff
  rw [change]
  simp only [hclosed, Bool.false_eq_true, if_false, hvar, if_pos hcond, hfmt]

/-- Witness for C10: on the finalized one-wire writer (timestamp 1), a
change to the invalid scalar `'q'` at past time 0 yields the value error,
not a phase error, and leaves the writer untouched. -/
theorem C10_validation_precedes_timestamp_witness :
    change wDump1 0 0 (PyVal.str ['q']) =
      (wDump1, .error (.valueError ("Invalid scalar value".toList))) ∧
    (0 : Int) < wDump1.timestamp := by
  refine ⟨C10_validation_precedes_timestamp wDump1 0
    { ident := ['0'], type := "wire".toList, size := .single 1,
      value := PyVal.int 1, kind := .scalar } 0 (PyVal.str ['q'])
    (.valueError ("Invalid scalar value".toList)) (by decide) (by decide)
    (by decide) (by decide), by decide⟩

/-! ## Claim C2: change deduplication -/

/-- C2 (amended): for an open writer past the registration phase, a
`change` whose value equals the variable's recorded value (and the
variable is not an event) is a no-op apart from the monotonic timestamp
bookkeeping: with a non-past timestamp it succeeds, emits nothing, and
changes no state except (possibly) advancing the internal timestamp; with
a past timestamp it raises the phase error. In particular two
identical-value changes at two non-decreasing timestamps emit no line for
the second call. (During the registration phase the same call can emit
the one-time header/`$dumpvars` block when the timestamp advances — see
the counterexample.) -/
theorem C2_change_dedup_noop (w : VCDWriter) (i : Nat) (var : Variable)
    (ts : Int) (hvar : w.vars.get? i = some var) (hclosed : w.closed = false)
    (hreg : w.registering = false) (hev : var.type ≠ "event".toList) :
    (w.timestamp ≤ ts → change w i ts var.value =
      ((if w.timestamp < ts then { w with timestamp := ts } else w), .ok ())) ∧
    (ts < w.timestamp → change w i ts var.value =
      (w, .error (.phaseError ("Out of order timestamp".toList)))) := by
  have hcond : ¬(var.value ≠ var.value ∨ var.type = "event".toList) := by
    rintro (h | h)
    · exact h rfl
    · exact hev h
  constructor
  · intro hle
    rw [change]
    simp only [hclosed, Bool.false_eq_true, if_false, hvar, if_neg hcond]
    rw [if_neg (by omega : ¬ ts < w.timestamp)]
    rw [changeAdvance]
    by_cases hlt : w.timestamp < ts
    · rw [if_pos (show ts > w.timestamp from hlt),
        if_neg (show ¬ w.registering = true by rw [hreg]; exact Bool.false_ne_true),
        if_pos hlt]
      simp only [List.isEmpty_nil, if_true]
      rw [hclosed]
    · rw [if_neg (show ¬ ts > w.timestamp from hlt), if_neg hlt]
      simp only [List.isEmpty_nil, if_true]
  · intro hlt
    rw [change]
    simp only [hclosed, Bool.false_eq_true, if_false, hvar, if_neg hcond]
    rw [if_pos hlt]

/-- C2 counterexample: on a writer still in the registration phase, a
deduplicated change (same value `'x'`, non-event variable) with an
advancing timestamp does emit output — the timestamp advance triggers the
one-time finalization, writing the whole header and `$dumpvars` block —
so "emits no output" does not hold as stated for registering writers. -/
theorem C2_counterexample :
    ((wReg1.vars.get? 0).map Variable.value = some (PyVal.str ['x'])) ∧
    ((wReg1.vars.get? 0).map Variable.type = some "wire".toList) ∧
    wReg1.registering = true ∧ wReg1.closed = false ∧
    (change wReg1 0 1 (PyVal.str ['x'])).2 = .ok () ∧
    (change wReg1 0 1 (PyVal.str ['x'])).1.output ≠ wReg1.output ∧
    (change wReg1 0 1 (PyVal.str ['x'])).1.output =
      ("$timescale 1 us $end\n$scope module top $end\n$var wire 1 0 a $end\n" ++
        "$upscope $end\n$enddefinitions $end\n#0\n$dumpvars\nx0\n$end\n").toList := by
  decide

/-- Witness for C2: on the finalized writer `wDump1` (timestamp 1,
variable 0 holding `1`), a second change to the same value `1` at time 2
returns cleanly having only advanced the timestamp, and at past time 0 it
raises the phase error. -/
theorem C2_change_dedup_noop_witness :
    change wDump1 0 2 (PyVal.int 1) =
      ({ wDump1 with timestamp := 2 }, .ok ()) ∧
    change wDump1 0 0 (PyVal.int 1) =
      (wDump1, .error (.phaseError ("Out of order timestamp".toList))) := by
  have h := C2_change_dedup_noop wDump1 0
    { ident := ['0'], type := "wire".toList, size := .single 1,
      value := PyVal.int 1, kind := .scalar } 2
    (by decide) (by decide) (by decide) (by decide)
  have h2 := C2_change_dedup_noop wDump1 0
    { ident := ['0'], type := "wire".toList, size := .single 1,
      value := PyVal.int 1, kind := .scalar } 0
    (by decide) (by decide) (by decide) (by decide)
  have ha := h.1 (by decide)
  have hb := h2.2 (by decide)
  revert ha hb
  decide

/-! ## Timestamp bookkeeping lemmas -/

theorem dumpValues_timestamp (w : VCDWriter) (kw : List Char) :
    (dumpValues w kw).1.timestamp = w.timestamp := by
  rw [dumpValues]
  split <;> rfl

theorem dumpTimestamp_timestamp (w : VCDWriter) :
    (dumpTimestamp w).timestamp = w.timestamp := by
  rw [dumpTimestamp]
  split <;> rfl

theorem finalizeRegistration_timestamp (w : VCDWriter) :
    (finalizeRegistration w).1.timestamp = w.timestamp := by
  rw [finalizeRegistration]
  split
  next w2 e heq =>
    have h := congrArg (fun p : VCDWriter × Except PyErr Unit => p.1.timestamp) heq
    simp only at h
    rw [← h]
    split
    · rfl
    · rw [dumpValues_timestamp, dumpTimestamp_timestamp]
  next w2 a heq =>
    have h := congrArg (fun p : VCDWriter × Except PyErr Unit => p.1.timestamp) heq
    simp only at h
    show w2.timestamp = w.timestamp
    rw [← h]
    split
    · rfl
    · rw [dumpValues_timestamp, dumpTimestamp_timestamp]

theorem setTimestamp_timestamp (w : VCDWriter) (ts : Int) :
    w.timestamp ≤ (setTimestamp w ts).1.timestamp := by
  rw [setTimestamp]
  split
  · exact le_refl w.timestamp
  · split
    · next h => show w.timestamp ≤ ts; omega
    · exact le_refl w.timestamp

theorem changeAdvance_timestamp (w : VCDWriter) (ts : Int) :
    w.timestamp ≤ (changeAdvance w ts).1.timestamp := by
  rw [changeAdvance]
  split
  · split
    · split
      next wf e heq =>
        have h := congrArg (fun p : VCDWriter × Except PyErr Unit => p.1.timestamp) heq
        simp only at h
        rw [finalizeRegistration_timestamp] at h
        show w.timestamp ≤ wf.timestamp
        omega
      next wf a heq =>
        show w.timestamp ≤ ts
        next hgt _ => omega
    · show w.timestamp ≤ ts
      next hgt _ => omega
  · exact le_refl w.timestamp

theorem change_timestamp (w : VCDWriter) (i : Nat) (ts : Int) (value : PyVal) :
    w.timestamp ≤ (change w i ts value).1.timestamp := by
  rw [change]
  simp only []
  repeat' split
  all_goals first
    | exact le_refl w.timestamp
    | (have h := changeAdvance_timestamp w ts
       simp only [*] at h
       exact h)

theorem dumpOff_timestamp (w : VCDWriter) (ts : Int) :
    w.timestamp ≤ (dumpOff w ts).1.timestamp := by
  have hA : w.timestamp ≤ ((if w.registering = true then finalizeRegistration w
      else (w, Except.ok ())).1).timestamp := by
    split
    · rw [finalizeRegistration_timestamp]
    · exact le_refl w.timestamp
  rw [dumpOff]
  try simp only []
  cases hf : (if w.registering = true then finalizeRegistration w
      else (w, Except.ok ())) with
  | mk w1 res1 =>
    rw [hf] at hA
    simp only at hA
    cases res1 with
    | error e => exact hA
    | ok a =>
      have hB := setTimestamp_timestamp w1 ts
      show w.timestamp ≤ (match setTimestamp w1 ts with
        | (w2, Except.error e) => (w2, Except.error e)
        | (w2, Except.ok _) =>
          if ¬ w2.dumping then (w2, Except.ok ())
          else ({ dumpTimestamp w2 with
            output := (dumpTimestamp w2).output ++ "$dumpoff\n".toList ++
              dumpOffLines (dumpTimestamp w2).vars ++ "$end\n".toList
            dumping := false }, Except.ok ())).1.timestamp
      cases hs : setTimestamp w1 ts with
      | mk w2 res2 =>
        rw [hs] at hB
        simp only at hB
        cases res2 with
        | error e => exact le_trans hA hB
        | ok a2 =>
          have hd := dumpTimestamp_timestamp w2
          show w.timestamp ≤ (if ¬ w2.dumping = true then (w2, Except.ok ())
            else ({ dumpTimestamp w2 with
              output := (dumpTimestamp w2).output ++ "$dumpoff\n".toList ++
                dumpOffLines (dumpTimestamp w2).vars ++ "$end\n".toList
              dumping := false }, Except.ok ())).1.timestamp
          split
          · exact le_trans hA hB
          · show w.timestamp ≤ (dumpTimestamp w2).timestamp
            omega

theorem dumpOn_timestamp (w : VCDWriter) (ts : Int) :
    w.timestamp ≤ (dumpOn w ts).1.timestamp := by
  have hA : w.timestamp ≤ ((if w.registering = true then finalizeRegistration w
      else (w, Except.ok ())).1).timestamp := by
    split
    · rw [finalizeRegistration_timestamp]
    · exact le_refl w.timestamp
  rw [dumpOn]
  try simp only []
  cases hf : (if w.registering = true then finalizeRegistration w
      else (w, Except.ok ())) with
  | mk w1 res1 =>
    rw [hf] at hA
    simp only at hA
    cases res1 with
    | error e => exact hA
    | ok a =>
      have hB := setTimestamp_timestamp w1 ts
      show w.timestamp ≤ (match setTimestamp w1 ts with
        | (w2, Except.error e) => (w2, Except.error e)
        | (w2, Except.ok _) =>
          if w2.dumping then (w2, Except.ok ())
          else dumpValues (dumpTimestamp { w2 with dumping := true })
            "$dumpon".toList).1.timestamp
      cases hs : setTimestamp w1 ts with
      | mk w2 res2 =>
        rw [hs] at hB
        simp only at hB
        cases res2 with
        | error e => exact le_trans hA hB
        | ok a2 =>
          show w.timestamp ≤ (if w2.dumping = true then (w2, Except.ok ())
            else dumpValues (dumpTimestamp { w2 with dumping := true })
              "$dumpon".toList).1.timestamp
          split
          · exact le_trans hA hB
          · have hd := dumpValues_timestamp
              (dumpTimestamp { w2 with dumping := true }) "$dumpon".toList
            have hd2 := dumpTimestamp_timestamp { w2 with dumping := true }
            have hd3 : ({ w2 with dumping := true } : VCDWriter).timestamp =
                w2.timestamp := rfl
            omega

theorem flush_timestamp (w : VCDWriter) (ts : Option Int) :
    w.timestamp ≤ (flush w ts).1.timestamp := by
  rw [flush]
  split
  · exact le_refl w.timestamp
  · have hA : w.timestamp ≤ ((if w.registering = true then finalizeRegistration w
        else (w, Except.ok ())).1).timestamp := by
      split
      · rw [finalizeRegistration_timestamp]
      · exact le_refl w.timestamp
    try simp only []
    cases hf : (if w.registering = true then finalizeRegistration w
        else (w, Except.ok ())) with
    | mk w1 res1 =>
      rw [hf] at hA
      simp only at hA
      cases res1 with
      | error e => exact hA
      | ok a =>
        cases ts with
        | none => exact hA
        | some t =>
          have hB := setTimestamp_timestamp w1 t
          show w.timestamp ≤ (match setTimestamp w1 t with
            | (w2, Except.error e) => (w2, Except.error e)
            | (w2, Except.ok _) => (dumpTimestamp w2, Except.ok ())).1.timestamp
          cases hs : setTimestamp w1 t with
          | mk w2 res2 =>
            rw [hs] at hB
            simp only at hB
            cases res2 with
            | error e => exact le_trans hA hB
            | ok a2 =>
              have hd := dumpTimestamp_timestamp w2
              show w.timestamp ≤ (dumpTimestamp w2).timestamp
              omega

theorem close_timestamp (w : VCDWriter) (ts : Option Int) :
    w.timestamp ≤ (close w ts).1.timestamp := by
  rw [close]
  split
  · have hflush := flush_timestamp w ts
    cases hfl : flush w ts with
    | mk w1 res1 =>
      rw [hfl] at hflush
      simp only at hflush
      cases res1 with
      | error e => exact hflush
      | ok a => exact hflush
  · exact le_refl w.timestamp

/-! ## Claim C6: timestamp monotonicity -/

/-- C6 counterexample: on `wDump1` (timestamp 1), a `change` call at the
past timestamp 0 with an invalid scalar value raises a ValueError, not
the phase error the claim promises for every out-of-order call (value
validation runs first; the writer is left unchanged). -/
theorem C6_counterexample :
    (0:Int) < wDump1.timestamp ∧ wDump1.closed = false ∧
    change wDump1 0 0 (PyVal.str ['q']) =
      (wDump1, Except.error (PyErr.valueError "Invalid scalar value".toList)) := by
  decide

/-- C6 (amended): on an open writer, a `change` call at a strictly past
timestamp whose value passes the preceding validation step (it is either
a deduplicated repeat on a non-event variable, or formats successfully)
raises the out-of-order phase error and leaves the writer unchanged; and
the writer timestamp is monotonically non-decreasing across `change`,
`dump_off`, `dump_on`, `flush` and `close`.  The claim as stated is
refuted by `C6_counterexample`: an invalid value raises a ValueError
even when the timestamp is also out of order. -/
theorem C6_timestamp_monotonic (w : VCDWriter) (i : Nat) (ts : Int)
    (value : PyVal) (tso : Option Int) (var : Variable)
    (hclosed : w.closed = false)
    (hvar : w.vars.get? i = some var)
    (hlt : ts < w.timestamp)
    (hok : value = var.value ∧ var.type ≠ "event".toList ∨
      (∃ s, var.formatValue value w.checkValues = Except.ok s)) :
    change w i ts value =
      (w, Except.error (PyErr.phaseError "Out of order timestamp".toList)) ∧
    w.timestamp ≤ (change w i ts value).1.timestamp ∧
    w.timestamp ≤ (dumpOff w ts).1.timestamp ∧
    w.timestamp ≤ (dumpOn w ts).1.timestamp ∧
    w.timestamp ≤ (flush w tso).1.timestamp ∧
    w.timestamp ≤ (close w tso).1.timestamp := by
  refine ⟨?_, change_timestamp w i ts value, dumpOff_timestamp w ts,
    dumpOn_timestamp w ts, flush_timestamp w tso, close_timestamp w tso⟩
  rw [change, hclosed]
  rw [if_neg (by simp)]
  rw [hvar]
  simp only []
  rcases hok with ⟨hveq, htype⟩ | ⟨s, hfmt⟩
  · rw [if_neg (fun h => h.elim (fun hne => hne hveq) htype)]
    show (if ts < w.timestamp then
      (w, Except.error (PyErr.phaseError "Out of order timestamp".toList))
      else _) = _
    rw [if_pos hlt]
  · by_cases hc : value ≠ var.value ∨ var.type = "event".toList
    · rw [if_pos hc, hfmt]
      show (if ts < w.timestamp then
        (w, Except.error (PyErr.phaseError "Out of order timestamp".toList))
        else _) = _
      rw [if_pos hlt]
    · rw [if_neg hc]
      show (if ts < w.timestamp then
        (w, Except.error (PyErr.phaseError "Out of order timestamp".toList))
        else _) = _
      rw [if_pos hlt]

/-- Witness for `C6_timestamp_monotonic` at `wDump1`, handle 0,
timestamp 0 and the deduplicated value `1`. -/
theorem C6_timestamp_monotonic_witness :
    change wDump1 0 0 (PyVal.int 1) =
      (wDump1, Except.error (PyErr.phaseError "Out of order timestamp".toList)) ∧
    wDump1.timestamp ≤ (change wDump1 0 0 (PyVal.int 1)).1.timestamp ∧
    wDump1.timestamp ≤ (dumpOff wDump1 0).1.timestamp ∧
    wDump1.timestamp ≤ (dumpOn wDump1 0).1.timestamp ∧
    wDump1.timestamp ≤ (flush wDump1 (some 0)).1.timestamp ∧
    wDump1.timestamp ≤ (close wDump1 (some 0)).1.timestamp :=
  C6_timestamp_monotonic wDump1 0 0 (PyVal.int 1) (some 0)
    { ident := ['0'], type := "wire".toList, size := VarSize.single 1,
      value := PyVal.int 1, kind := VarKind.scalar }
    (by decide) (by decide) (by decide)
    (Or.inl ⟨by decide, by decide⟩)

/-! ## Claim C8: idempotence of dump_off and close -/

theorem dumpValues_flags (w : VCDWriter) (kw : List Char) :
    (dumpValues w kw).1.dumping = w.dumping ∧
    (dumpValues w kw).1.registering = w.registering := by
  rw [dumpValues]
  split <;> exact ⟨rfl, rfl⟩

theorem dumpTimestamp_flags (w : VCDWriter) :
    (dumpTimestamp w).dumping = w.dumping ∧
    (dumpTimestamp w).registering = w.registering := by
  rw [dumpTimestamp]
  split <;> exact ⟨rfl, rfl⟩

theorem setTimestamp_state (w : VCDWriter) (ts : Int) :
    (setTimestamp w ts).1.dumping = w.dumping ∧
    (setTimestamp w ts).1.registering = w.registering ∧
    (setTimestamp w ts).1.output = w.output := by
  rw [setTimestamp]
  split
  · exact ⟨rfl, rfl, rfl⟩
  · split <;> exact ⟨rfl, rfl, rfl⟩

theorem setTimestamp_ok (w : VCDWriter) (ts : Int) (h : ¬ ts < w.timestamp) :
    (setTimestamp w ts).2 = Except.ok () := by
  rw [setTimestamp, if_neg h]
  split <;> rfl

theorem finalizeRegistration_ok_registering (w : VCDWriter) :
    (finalizeRegistration w).2 = Except.ok () →
    (finalizeRegistration w).1.registering = false := by
  rw [finalizeRegistration]
  split
  · intro h
    exact Except.noConfusion h
  · intro h
    rfl

theorem dumpOff_ok_flags (w : VCDWriter) (ts : Int) (w1 : VCDWriter)
    (h : dumpOff w ts = (w1, Except.ok ())) :
    w1.dumping = false ∧ w1.registering = false := by
  rw [dumpOff] at h
  try simp only [] at h
  cases hf : (if w.registering = true then finalizeRegistration w
      else (w, Except.ok ())) with
  | mk wA resA =>
    rw [hf] at h
    have hAreg : resA = Except.ok () → wA.registering = false := by
      intro hres
      by_cases hr : w.registering = true
      · rw [if_pos hr] at hf
        have h2 := finalizeRegistration_ok_registering w (by rw [hf, hres])
        rw [hf] at h2
        exact h2
      · rw [if_neg hr] at hf
        have h3 := congrArg Prod.fst hf
        simp only at h3
        rw [← h3]
        cases hb : w.registering with
        | false => rfl
        | true => exact absurd hb hr
    cases resA with
    | error e => exact Except.noConfusion (congrArg Prod.snd h)
    | ok a =>
      have hAreg2 := hAreg rfl
      have h' : (match setTimestamp wA ts with
        | (w2, Except.error e) => (w2, Except.error e)
        | (w2, Except.ok _) =>
          if ¬ w2.dumping then (w2, Except.ok ())
          else ({ dumpTimestamp w2 with
            output := (dumpTimestamp w2).output ++ "$dumpoff\n".toList ++
              dumpOffLines (dumpTimestamp w2).vars ++ "$end\n".toList
            dumping := false }, Except.ok ())) = (w1, Except.ok ()) := h
      have hst := setTimestamp_state wA ts
      cases hs : setTimestamp wA ts with
      | mk wB resB =>
        rw [hs] at h' hst
        simp only at hst
        cases resB with
        | error e => exact Except.noConfusion (congrArg Prod.snd h')
        | ok b =>
          have h2' : (if ¬ wB.dumping then (wB, Except.ok ())
            else ({ dumpTimestamp wB with
              output := (dumpTimestamp wB).output ++ "$dumpoff\n".toList ++
                dumpOffLines (dumpTimestamp wB).vars ++ "$end\n".toList
              dumping := false }, Except.ok ())) = (w1, Except.ok ()) := h'
          by_cases hdmp : wB.dumping = true
          · rw [if_neg (fun hh => hh hdmp)] at h2'
            have h4 := congrArg Prod.fst h2'
            simp only at h4
            constructor
            · rw [← h4]
            · rw [← h4]
              show (dumpTimestamp wB).registering = false
              rw [(dumpTimestamp_flags wB).2, hst.2.1]
              exact hAreg2
          · rw [if_pos hdmp] at h2'
            have h4 := congrArg Prod.fst h2'
            simp only at h4
            constructor
            · rw [← h4]
              cases hbb : wB.dumping with
              | false => rfl
              | true => exact absurd hbb hdmp
            · rw [← h4, hst.2.1]
              exact hAreg2

theorem dumpOff_quiescent (w : VCDWriter) (ts : Int)
    (hd : w.dumping = false) (hr : w.registering = false)
    (hts : ¬ ts < w.timestamp) :
    dumpOff w ts = ((setTimestamp w ts).1, Except.ok ()) := by
  rw [dumpOff]
  try simp only []
  rw [if_neg (show ¬ w.registering = true by rw [hr]; exact Bool.false_ne_true)]
  show (match setTimestamp w ts with
    | (w2, Except.error e) => (w2, Except.error e)
    | (w2, Except.ok _) =>
      if ¬ w2.dumping then (w2, Except.ok ())
      else ({ dumpTimestamp w2 with
        output := (dumpTimestamp w2).output ++ "$dumpoff\n".toList ++
          dumpOffLines (dumpTimestamp w2).vars ++ "$end\n".toList
        dumping := false }, Except.ok ())) = ((setTimestamp w ts).1, Except.ok ())
  have hok := setTimestamp_ok w ts hts
  have hst := setTimestamp_state w ts
  cases hs : setTimestamp w ts with
  | mk w2 res2 =>
    rw [hs] at hok hst
    simp only at hok hst
    cases res2 with
    | error e => exact Except.noConfusion hok
    | ok a =>
      show (if ¬ w2.dumping then (w2, Except.ok ())
        else ({ dumpTimestamp w2 with
          output := (dumpTimestamp w2).output ++ "$dumpoff\n".toList ++
            dumpOffLines (dumpTimestamp w2).vars ++ "$end\n".toList
          dumping := false }, Except.ok ())) = ((w2, Except.ok a).1, Except.ok ())
      rw [if_pos (show ¬ w2.dumping = true by
        rw [hst.1, hd]; exact Bool.false_ne_true)]

theorem close_ok_closed (v : VCDWriter) (tso : Option Int) (v1 : VCDWriter)
    (h : close v tso = (v1, Except.ok ())) : v1.closed = true := by
  rw [close] at h
  by_cases hcl : v.closed = true
  · rw [if_neg (fun hh => hh hcl)] at h
    have h4 : v = v1 := congrArg Prod.fst h
    rw [← h4]
    exact hcl
  · rw [if_pos hcl] at h
    cases hfl : flush v tso with
    | mk vf resf =>
      rw [hfl] at h
      cases resf with
      | error e => exact Except.noConfusion (congrArg Prod.snd h)
      | ok a =>
        have h4 : ({ vf with closed := true } : VCDWriter) = v1 :=
          congrArg Prod.fst h
        rw [← h4]

theorem close_of_closed (v : VCDWriter) (tso : Option Int) (h : v.closed = true) :
    close v tso = (v, Except.ok ()) := by
  rw [close, if_neg (fun hh => hh h)]

/-- C8: after a successful `dump_off`, a second `dump_off` at a
non-decreasing timestamp produces no output and succeeds (only timestamp
bookkeeping happens), and after a successful `close`, a second `close`
is a silent no-op returning the writer unchanged. -/
theorem C8_idempotent (w v w1 v1 : VCDWriter) (ts ts' : Int)
    (tso tso' : Option Int)
    (h1 : dumpOff w ts = (w1, Except.ok ()))
    (hts : ¬ ts' < w1.timestamp)
    (hc : close v tso = (v1, Except.ok ())) :
    (dumpOff w1 ts').1.output = w1.output ∧
    (dumpOff w1 ts').2 = Except.ok () ∧
    close v1 tso' = (v1, Except.ok ()) := by
  obtain ⟨hd, hr⟩ := dumpOff_ok_flags w ts w1 h1
  have hq := dumpOff_quiescent w1 ts' hd hr hts
  refine ⟨?_, ?_, close_of_closed v1 tso' (close_ok_closed v tso v1 hc)⟩
  · rw [hq]
    exact (setTimestamp_state w1 ts').2.2
  · rw [hq]

/-- Witness for `C8_idempotent`: `wDump1` dump-off'd at 2 then 3, and
closed at 2 then closed again at 3. -/
theorem C8_idempotent_witness :
    (dumpOff (dumpOff wDump1 2).1 3).1.output = (dumpOff wDump1 2).1.output ∧
    (dumpOff (dumpOff wDump1 2).1 3).2 = Except.ok () ∧
    close (close wDump1 (some 2)).1 (some 3) =
      ((close wDump1 (some 2)).1, Except.ok ()) :=
  C8_idempotent wDump1 wDump1 (dumpOff wDump1 2).1 (close wDump1 (some 2)).1
    2 3 (some 2) (some 3) (by decide) (by decide) (by decide)

/-! ## Claim C7: register_var atomicity -/

theorem alistSetdefault_idem {K V : Type} [DecidableEq K] (m : List (K × V))
    (k : K) (v : V) :
    alistSetdefault (alistSetdefault m k v) k v = alistSetdefault m k v := by
  simp only [alistSetdefault]
  by_cases h : (m.find? fun p => decide (p.1 = k)).isSome
  · rw [if_pos h, if_pos h]
  · rw [if_neg h]
    rw [if_pos]
    rw [List.find?_append]
    cases hf : m.find? fun p => decide (p.1 = k) with
    | some p => exact absurd (by rw [hf]; rfl) h
    | none => simp [List.find?]

theorem alistGet_setdefault_getD {K : Type} [DecidableEq K]
    (m : List (K × List (List Char))) (k : K) :
    (alistGet (alistSetdefault m k []) k).getD [] = (alistGet m k).getD [] := by
  rw [alistSetdefault]
  by_cases h : (m.find? fun p => decide (p.1 = k)).isSome
  · rw [if_pos h]
  · rw [if_neg h, alistGet, alistGet, List.find?_append]
    cases hf : m.find? fun p => decide (p.1 = k) with
    | some p => exact absurd (by rw [hf]; rfl) h
    | none => simp [List.find?]

theorem registerVar_setdefault (w : VCDWriter) (scope : List (List Char))
    (name varType : List Char) (size : Option VarSize) (init : Option PyVal)
    (identOpt : Option (List Char)) (hclosed : w.closed = false)
    (hreg : w.registering = true) (hvt : VAR_TYPES.contains varType = true) :
    registerVar { w with
        scopeVarNames := alistSetdefault w.scopeVarNames scope [] }
      scope name varType size init identOpt =
    registerVar w scope name varType size init identOpt := by
  have hvt2 : varType ∈ VAR_TYPES := by simpa using hvt
  simp [registerVar, hclosed, hreg, hvt, hvt2, alistSetdefault_idem]

/-- C7: a failing `register_var` call is atomic up to the `setdefault`
of the scope's (empty) name set: it consumes no variable id, appends no
variable, adds no `$var` declaration line, emits no output, leaves the
set of names taken in the scope unchanged, and a retry with the same
scope, name and var type behaves exactly as it would have on the
original writer (in particular a valid retry succeeds). -/
theorem C7_registerVar_atomic (w : VCDWriter) (scope : List (List Char))
    (name varType : List Char) (size : Option VarSize) (init : Option PyVal)
    (identOpt : Option (List Char)) (w' : VCDWriter) (e : PyErr)
    (h : registerVar w scope name varType size init identOpt =
      (w', Except.error e)) :
    w'.nextVarId = w.nextVarId ∧
    w'.vars = w.vars ∧
    w'.scopeVarStrs = w.scopeVarStrs ∧
    w'.output = w.output ∧
    (alistGet w'.scopeVarNames scope).getD [] =
      (alistGet w.scopeVarNames scope).getD [] ∧
    ∀ size2 init2 identOpt2,
      registerVar w' scope name varType size2 init2 identOpt2 =
        registerVar w scope name varType size2 init2 identOpt2 := by
  rw [registerVar.eq_def] at h
  by_cases hclosed : w.closed = true
  · rw [if_pos hclosed] at h
    obtain rfl : w = w' := congrArg Prod.fst h
    exact ⟨rfl, rfl, rfl, rfl, rfl, fun _ _ _ => rfl⟩
  · rw [if_neg hclosed] at h
    by_cases hreg : w.registering = true
    · rw [if_neg (fun hh => hh hreg)] at h
      by_cases hvt : VAR_TYPES.contains varType = true
      · rw [if_neg (fun hh => hh hvt)] at h
        try simp only [] at h
        have hW : w' = { w with
            scopeVarNames := alistSetdefault w.scopeVarNames scope [] } := by
          repeat' split at h
          all_goals first
            | exact (congrArg Prod.fst h).symm
            | exact Except.noConfusion (congrArg Prod.snd h)
        have hc : w.closed = false := by
          cases hcv : w.closed with
          | false => rfl
          | true => exact absurd hcv hclosed
        subst hW
        refine ⟨rfl, rfl, rfl, rfl, alistGet_setdefault_getD _ _, ?_⟩
        intro size2 init2 identOpt2
        exact registerVar_setdefault w scope name varType size2 init2 identOpt2
          hc hreg hvt
      · rw [if_pos hvt] at h
        obtain rfl : w = w' := congrArg Prod.fst h
        exact ⟨rfl, rfl, rfl, rfl, rfl, fun _ _ _ => rfl⟩
    · rw [if_pos hreg] at h
      obtain rfl : w = w' := congrArg Prod.fst h
      exact ⟨rfl, rfl, rfl, rfl, rfl, fun _ _ _ => rfl⟩

/-- Witness for `C7_registerVar_atomic`: registering `b` on `wReg1` with
the invalid scalar initial value `'q'` fails with a ValueError and is
atomic. -/
theorem C7_registerVar_atomic_witness :
    (registerVar wReg1 ["top".toList] "b".toList "wire".toList
        (some (VarSize.single 1)) (some (PyVal.str ['q'])) Option.none).1.nextVarId =
      wReg1.nextVarId ∧
    (registerVar wReg1 ["top".toList] "b".toList "wire".toList
        (some (VarSize.single 1)) (some (PyVal.str ['q'])) Option.none).1.vars =
      wReg1.vars ∧
    (registerVar wReg1 ["top".toList] "b".toList "wire".toList
        (some (VarSize.single 1)) (some (PyVal.str ['q'])) Option.none).1.scopeVarStrs =
      wReg1.scopeVarStrs ∧
    (registerVar wReg1 ["top".toList] "b".toList "wire".toList
        (some (VarSize.single 1)) (some (PyVal.str ['q'])) Option.none).1.output =
      wReg1.output ∧
    (alistGet (registerVar wReg1 ["top".toList] "b".toList "wire".toList
        (some (VarSize.single 1)) (some (PyVal.str ['q'])) Option.none).1.scopeVarNames
      ["top".toList]).getD [] =
      (alistGet wReg1.scopeVarNames ["top".toList]).getD [] ∧
    ∀ size2 init2 identOpt2,
      registerVar (registerVar wReg1 ["top".toList] "b".toList "wire".toList
          (some (VarSize.single 1)) (some (PyVal.str ['q'])) Option.none).1
        ["top".toList] "b".toList "wire".toList size2 init2 identOpt2 =
      registerVar wReg1 ["top".toList] "b".toList "wire".toList
        size2 init2 identOpt2 :=
  C7_registerVar_atomic wReg1 ["top".toList] "b".toList "wire".toList
    (some (VarSize.single 1)) (some (PyVal.str ['q'])) Option.none
    (registerVar wReg1 ["top".toList] "b".toList "wire".toList
      (some (VarSize.single 1)) (some (PyVal.str ['q'])) Option.none).1
    (PyErr.valueError "Invalid scalar value".toList) (by decide)

/-! ## Claim C5: dump_off output and suspended changes -/

def wStr0 : VCDWriter :=
  (registerVar wFresh ["top".toList] "s".toList "string".toList
    (some (VarSize.single 1)) Option.none Option.none).1

def wStr1 : VCDWriter := (change wStr0 0 1 (PyVal.str "hi".toList)).1

theorem setTimestamp_misc (w : VCDWriter) (ts : Int) :
    (setTimestamp w ts).1.vars = w.vars ∧
    (setTimestamp w ts).1.lastDumpedTs = w.lastDumpedTs := by
  rw [setTimestamp]
  split
  · exact ⟨rfl, rfl⟩
  · split <;> exact ⟨rfl, rfl⟩

theorem dumpTimestamp_vars (w : VCDWriter) :
    (dumpTimestamp w).vars = w.vars := by
  rw [dumpTimestamp]
  split <;> rfl

theorem dumpTimestamp_output (w : VCDWriter) (hdmp : w.dumping = true) :
    (dumpTimestamp w).output = w.output ++
      (if w.lastDumpedTs = some w.timestamp then []
       else '#' :: (intToDec w.timestamp ++ ['\n'])) := by
  rw [dumpTimestamp]
  by_cases hl : w.lastDumpedTs = some w.timestamp
  · rw [if_neg, if_pos hl]
    · exact (List.append_nil _).symm
    · rintro (⟨hne, _⟩ | hn)
      · exact hne hl.symm
      · rw [hl] at hn
        exact Option.noConfusion hn
  · rw [if_pos, if_neg hl]
    · show w.output ++ ('#' :: intToDec w.timestamp) ++ ['\n'] = _
      simp [List.append_assoc]
    · exact Or.inl ⟨fun hh => hl hh.symm, hdmp⟩

theorem Variable_dumpOff_scalar (var : Variable)
    (hk : var.kind = VarKind.scalar) :
    var.dumpOff = some ('x' :: var.ident) := by
  simp [Variable.dumpOff, hk]

theorem formatValue_vector (var : Variable) (n : Nat) (value : PyVal)
    (check : Bool) (hk : var.kind = VarKind.vector)
    (hs : var.size = VarSize.single n) :
    var.formatValue value check = (formatScalarValue value n check).map
      (fun vstr => 'b' :: (vstr ++ (' ' :: var.ident))) := by
  rw [Variable.formatValue.eq_def, hk, hs]

theorem Variable_dumpOff_vector (var : Variable) (n : Nat)
    (hk : var.kind = VarKind.vector) (hs : var.size = VarSize.single n) :
    var.dumpOff = some ('b' :: 'x' :: ' ' :: var.ident) := by
  simp only [Variable.dumpOff, hk]
  rw [formatValue_vector var n (PyVal.str ['x']) false hk hs]
  simp +decide [formatScalarValue, Except.map, Except.toOption]

theorem replicate_zip {α β : Type} (v : α) (szs : List β) :
    (List.replicate szs.length v).zip szs = szs.map fun s => (v, s) := by
  induction szs with
  | nil => rfl
  | cons s rest ih => simp [List.replicate, ih]

theorem compoundBuild_allx (szs : List Nat) (L : List (List Char))
    (len sum : Nat) :
    compoundBuild false (szs.map fun s => (PyVal.str ['x'], s))
      (['x'] :: L, len, sum) = .ok (['x'] :: L, len, sum + szs.sum) := by
  induction szs generalizing sum with
  | nil => rfl
  | cons s rest ih =>
    rw [List.map_cons]
    show compoundBuild false ((PyVal.str ['x'], s) :: rest.map fun s =>
      (PyVal.str ['x'], s)) (['x'] :: L, len, sum) = _
    rw [compoundBuild]
    simp +decide [formatScalarValue, ih (sum + s), Nat.add_assoc]

theorem compoundFormatValue_allx (ns : List Nat) (ident : List Char)
    (hne : ns ≠ []) :
    compoundFormatValue ns ident
      (List.replicate ns.length (PyVal.str ['x'])) false =
      .ok ('b' :: 'x' :: ' ' :: ident) := by
  rw [compoundFormatValue]
  rw [if_neg (by simp)]
  have hz : (List.replicate ns.length (PyVal.str ['x'])).reverse.zip ns.reverse =
      ns.reverse.map fun s => (PyVal.str ['x'], s) := by
    rw [List.reverse_replicate]
    rw [show ns.length = ns.reverse.length from (List.length_reverse ns).symm]
    exact replicate_zip _ _
  rw [hz]
  cases hrev : ns.reverse with
  | nil =>
    exact absurd (by rw [← List.reverse_reverse ns, hrev]; rfl) hne
  | cons s rest =>
    rw [List.map_cons]
    show (match compoundBuild false ((PyVal.str ['x'], s) :: rest.map fun s =>
        (PyVal.str ['x'], s)) ([], 0, 0) with
      | Except.error e => Except.error e
      | Except.ok (vstrList, _, _) =>
        Except.ok ('b' :: (vstrList.flatten ++ (' ' :: ident)))) = _
    rw [compoundBuild]
    simp +decide [formatScalarValue, compoundBuild_allx]

theorem formatValue_compound (var : Variable) (ns : List Nat)
    (vs : List PyVal) (check : Bool) (hk : var.kind = VarKind.compound)
    (hs : var.size = VarSize.compound ns) :
    var.formatValue (PyVal.tup vs) check =
      compoundFormatValue ns var.ident vs check := by
  rw [Variable.formatValue.eq_def, hk, hs]

theorem Variable_dumpOff_compound (var : Variable) (ns : List Nat)
    (hk : var.kind = VarKind.compound) (hs : var.size = VarSize.compound ns)
    (hne : ns ≠ []) :
    var.dumpOff = some ('b' :: 'x' :: ' ' :: var.ident) := by
  simp only [Variable.dumpOff, hk, hs]
  rw [formatValue_compound var ns _ false hk hs]
  rw [compoundFormatValue_allx ns var.ident hne]
  rfl

theorem Variable_dumpOff_none (var : Variable)
    (hk : var.kind = VarKind.real ∨ var.kind = VarKind.event ∨
      var.kind = VarKind.string) :
    var.dumpOff = Option.none := by
  rcases hk with hk | hk | hk <;> simp [Variable.dumpOff, hk]

theorem change_suspended (w : VCDWriter) (i : Nat) (ts : Int) (value : PyVal)
    (var : Variable) (valStr : List Char)
    (hclosed : w.closed = false) (hreg : w.registering = false)
    (hdmp : w.dumping = false)
    (hvar : w.vars.get? i = some var)
    (hnew : value ≠ var.value ∨ var.type = "event".toList)
    (hfmt : var.formatValue value w.checkValues = Except.ok valStr)
    (hne : valStr ≠ [])
    (hts : ¬ ts < w.timestamp) :
    change w i ts value =
      ({ (if ts > w.timestamp then { w with timestamp := ts } else w) with
        vars := w.vars.set i { var with value := value } }, Except.ok ()) := by
  rw [change]
  rw [if_neg (show ¬ w.closed = true by rw [hclosed]; exact Bool.false_ne_true)]
  rw [hvar]
  simp only []
  rw [if_pos hnew, hfmt]
  show (if ts < w.timestamp then
    (w, Except.error (PyErr.phaseError "Out of order timestamp".toList))
    else _) = _
  rw [if_neg hts]
  rw [changeAdvance]
  by_cases hgt : ts > w.timestamp
  · rw [if_pos hgt]
    rw [if_neg (by rw [hreg]; exact Bool.false_ne_true)]
    show (if valStr.isEmpty = true then _ else _) = _
    rw [if_neg (by cases valStr with
      | nil => exact absurd rfl hne
      | cons c l => simp)]
    rw [if_neg (by rw [hdmp]; rintro ⟨hh, _⟩; exact Bool.false_ne_true hh)]
    rw [if_pos hgt]
  · rw [if_neg hgt]
    show (if valStr.isEmpty = true then _ else _) = _
    rw [if_neg (by cases valStr with
      | nil => exact absurd rfl hne
      | cons c l => simp)]
    rw [if_neg (by rw [hdmp]; rintro ⟨hh, _⟩; exact Bool.false_ne_true hh)]
    rw [if_neg hgt]

theorem dumpOff_dumping (w : VCDWriter) (ts : Int)
    (hreg : w.registering = false) (hdmp : w.dumping = true)
    (hts : ¬ ts < w.timestamp) :
    dumpOff w ts = ({ dumpTimestamp (setTimestamp w ts).1 with
      output := (dumpTimestamp (setTimestamp w ts).1).output ++
        "$dumpoff\n".toList ++
        dumpOffLines (dumpTimestamp (setTimestamp w ts).1).vars ++
        "$end\n".toList
      dumping := false }, Except.ok ()) := by
  rw [dumpOff]
  try simp only []
  rw [if_neg (show ¬ w.registering = true by rw [hreg]; exact Bool.false_ne_true)]
  show (match setTimestamp w ts with
    | (w2, Except.error e) => (w2, Except.error e)
    | (w2, Except.ok _) =>
      if ¬ w2.dumping then (w2, Except.ok ())
      else ({ dumpTimestamp w2 with
        output := (dumpTimestamp w2).output ++ "$dumpoff\n".toList ++
          dumpOffLines (dumpTimestamp w2).vars ++ "$end\n".toList
        dumping := false }, Except.ok ())) = _
  have hok := setTimestamp_ok w ts hts
  have hst := setTimestamp_state w ts
  cases hs : setTimestamp w ts with
  | mk w2 res2 =>
    rw [hs] at hok hst
    simp only at hok hst
    cases res2 with
    | error e => exact Except.noConfusion hok
    | ok a =>
      show (if ¬ w2.dumping = true then (w2, Except.ok ())
        else ({ dumpTimestamp w2 with
          output := (dumpTimestamp w2).output ++ "$dumpoff\n".toList ++
            dumpOffLines (dumpTimestamp w2).vars ++ "$end\n".toList
          dumping := false }, Except.ok ())) = _
      rw [if_neg (fun hh => hh (hst.1.trans hdmp))]

/-- C5 (amended): on a finalized, dumping writer, `dump_off` succeeds,
suspends dumping, emits a timestamp line exactly when the new timestamp
was not already dumped, then `$dumpoff`, then the forced-unknown lines of
`dumpOffLines`, then `$end`.  Per kind, the forced restatement is
`x<ident>` for scalars and `bx <ident>` for vectors and compounds, while
real, event AND string variables emit nothing — the claim exempts only
real variables, which `C5_counterexample` refutes.  While suspended, a
`change` with a valid new value updates the recorded value and produces
no output. -/
theorem C5_dump_off_suspend (w : VCDWriter) (ts : Int)
    (hreg : w.registering = false) (hdmp : w.dumping = true)
    (hts : ¬ ts < w.timestamp) :
    (dumpOff w ts).2 = Except.ok () ∧
    (dumpOff w ts).1.dumping = false ∧
    (dumpOff w ts).1.vars = w.vars ∧
    (dumpOff w ts).1.output = w.output ++
      (if w.lastDumpedTs = some (setTimestamp w ts).1.timestamp then []
       else '#' :: (intToDec (setTimestamp w ts).1.timestamp ++ ['\n'])) ++
      "$dumpoff\n".toList ++ dumpOffLines w.vars ++ "$end\n".toList ∧
    (∀ var : Variable, var.kind = VarKind.scalar →
      var.dumpOff = some ('x' :: var.ident)) ∧
    (∀ (var : Variable) (n : Nat), var.kind = VarKind.vector →
      var.size = VarSize.single n →
      var.dumpOff = some ('b' :: 'x' :: ' ' :: var.ident)) ∧
    (∀ (var : Variable) (ns : List Nat), var.kind = VarKind.compound →
      var.size = VarSize.compound ns → ns ≠ [] →
      var.dumpOff = some ('b' :: 'x' :: ' ' :: var.ident)) ∧
    (∀ var : Variable, var.kind = VarKind.real ∨ var.kind = VarKind.event ∨
      var.kind = VarKind.string → var.dumpOff = Option.none) ∧
    (∀ (w' : VCDWriter) (i : Nat) (ts' : Int) (value : PyVal)
      (var : Variable) (valStr : List Char), w'.closed = false →
      w'.registering = false → w'.dumping = false →
      w'.vars.get? i = some var →
      (value ≠ var.value ∨ var.type = "event".toList) →
      var.formatValue value w'.checkValues = Except.ok valStr → valStr ≠ [] →
      ¬ ts' < w'.timestamp →
      change w' i ts' value =
        ({ (if ts' > w'.timestamp then { w' with timestamp := ts' } else w') with
          vars := w'.vars.set i { var with value := value } }, Except.ok ())) := by
  have hD := dumpOff_dumping w ts hreg hdmp hts
  have hst := setTimestamp_state w ts
  have hmisc := setTimestamp_misc w ts
  refine ⟨?_, ?_, ?_, ?_, fun var hk => Variable_dumpOff_scalar var hk,
    fun var n hk hs => Variable_dumpOff_vector var n hk hs,
    fun var ns hk hs hne => Variable_dumpOff_compound var ns hk hs hne,
    fun var hk => Variable_dumpOff_none var hk,
    fun w' i ts' value var valStr h1 h2 h3 h4 h5 h6 h7 h8 =>
      change_suspended w' i ts' value var valStr h1 h2 h3 h4 h5 h6 h7 h8⟩
  · rw [hD]
  · rw [hD]
  · rw [hD]
    show (dumpTimestamp (setTimestamp w ts).1).vars = w.vars
    rw [dumpTimestamp_vars]
    exact hmisc.1
  · rw [hD]
    show (dumpTimestamp (setTimestamp w ts).1).output ++ "$dumpoff\n".toList ++
      dumpOffLines (dumpTimestamp (setTimestamp w ts).1).vars ++
      "$end\n".toList = _
    rw [dumpTimestamp_vars, hmisc.1]
    rw [dumpTimestamp_output _ (by rw [hst.1]; exact hdmp)]
    rw [hst.2.2, hmisc.2]

/-- C5 counterexample: `wStr1` holds a registered string variable, which
is neither real nor event, yet its `dump_off` restatement is `None`:
the `$dumpoff` section contains no line for it. -/
theorem C5_counterexample :
    wStr1.vars = [{
      ident := ['0']
      type := "string".toList
      size := VarSize.single 1
      value := PyVal.str "hi".toList
      kind := VarKind.string }] ∧
    VarKind.string ≠ VarKind.real ∧
    VarKind.string ≠ VarKind.event ∧
    Variable.dumpOff {
      ident := ['0']
      type := "string".toList
      size := VarSize.single 1
      value := PyVal.str "hi".toList
      kind := VarKind.string } = Option.none ∧
    (dumpOff wStr1 2).1.output =
      wStr1.output ++ "#2\n$dumpoff\n$end\n".toList := by
  decide

/-- Witness for `C5_dump_off_suspend` at `wDump1`, timestamp 2. -/
theorem C5_dump_off_suspend_witness :
    (dumpOff wDump1 2).2 = Except.ok () ∧
    (dumpOff wDump1 2).1.dumping = false ∧
    (dumpOff wDump1 2).1.vars = wDump1.vars ∧
    (dumpOff wDump1 2).1.output = wDump1.output ++
      (if wDump1.lastDumpedTs = some (setTimestamp wDump1 2).1.timestamp then []
       else '#' :: (intToDec (setTimestamp wDump1 2).1.timestamp ++ ['\n'])) ++
      "$dumpoff\n".toList ++ dumpOffLines wDump1.vars ++ "$end\n".toList ∧
    (∀ var : Variable, var.kind = VarKind.scalar →
      var.dumpOff = some ('x' :: var.ident)) ∧
    (∀ (var : Variable) (n : Nat), var.kind = VarKind.vector →
      var.size = VarSize.single n →
      var.dumpOff = some ('b' :: 'x' :: ' ' :: var.ident)) ∧
    (∀ (var : Variable) (ns : List Nat), var.kind = VarKind.compound →
      var.size = VarSize.compound ns → ns ≠ [] →
      var.dumpOff = some ('b' :: 'x' :: ' ' :: var.ident)) ∧
    (∀ var : Variable, var.kind = VarKind.real ∨ var.kind = VarKind.event ∨
      var.kind = VarKind.string → var.dumpOff = Option.none) ∧
    (∀ (w' : VCDWriter) (i : Nat) (ts' : Int) (value : PyVal)
      (var : Variable) (valStr : List Char), w'.closed = false →
      w'.registering = false → w'.dumping = false →
      w'.vars.get? i = some var →
      (value ≠ var.value ∨ var.type = "event".toList) →
      var.formatValue value w'.checkValues = Except.ok valStr → valStr ≠ [] →
      ¬ ts' < w'.timestamp →
      change w' i ts' value =
        ({ (if ts' > w'.timestamp then { w' with timestamp := ts' } else w') with
          vars := w'.vars.set i { var with value := value } }, Except.ok ())) :=
  C5_dump_off_suspend wDump1 2 (by decide) (by decide) (by decide)

/-! ## Claim C9: tokenizer error localization -/

/-! ## The reader: tokenizer (`src/vcd/reader.py`)

The tokenizer is embedded over `List Char` input.  `TokState.rest` holds
the current character at its head followed by the unread input (the
Python state's `buf[pos]` plus the unread stream); `line`/`col` mirror
`lineno`/`column`.  Token spans are not modelled; error locations are.
Loops carry explicit fuel so that concrete runs reduce in the kernel; a
fuel of `rest.length + 1` is always sufficient since every iteration
consumes one input character. -/

structure Loc where
  line : Nat
  col : Nat
deriving DecidableEq, Repr

/-- An error escaping the tokenizer: a located `VCDParseError`, or a bare
Python `ValueError` (no location). -/
inductive TokErr where
  | parse (loc : Loc) (msg : List Char)
  | valueErr (msg : List Char)
deriving DecidableEq, Repr

structure TokState where
  rest : List Char
  line : Nat
  col : Nat
deriving DecidableEq, Repr

def TokState.loc (s : TokState) : Loc := ⟨s.line, s.col⟩

def TokState.cur (s : TokState) : Char := s.rest.headD '\x00'

/-- `_TokenizerState.advance()` with `raise_on_eof=True`; `none` is the
`StopIteration`. -/
def advanceH (s : TokState) : Option (TokState × Char) :=
  match s.rest with
  | _ :: c :: t =>
    some (⟨c :: t, if c = '\n' then s.line + 1 else s.line,
      if c = '\n' then 1 else s.col + 1⟩, c)
  | _ => Option.none

/-- `advance(raise_on_eof=False)`: yields `0` at end of input, leaving
the state unchanged. -/
def advanceS (s : TokState) : TokState × Char :=
  match advanceH s with
  | some r => r
  | Option.none => (s, '\x00')

def isWs (c : Char) : Bool :=
  c.toNat == 32 || (9 ≤ c.toNat && c.toNat ≤ 13)

def isDigit (c : Char) : Bool := 48 ≤ c.toNat && c.toNat ≤ 57

def isPrintable (c : Char) : Bool := 33 ≤ c.toNat && c.toNat ≤ 126

def isIdentStart (c : Char) : Bool :=
  (65 ≤ c.toNat && c.toNat ≤ 90) || (97 ≤ c.toNat && c.toNat ≤ 122) ||
    c.toNat == 95

def isIdentChar (c : Char) : Bool :=
  isDigit c || (65 ≤ c.toNat && c.toNat ≤ 90) ||
    (97 ≤ c.toNat && c.toNat ≤ 122) || c.toNat == 95 || c.toNat == 36 ||
    c.toNat == 46 || c.toNat == 40 || c.toNat == 41

/-- The outcome of a tokenizer step: end of input (`StopIteration`), an
escaping error, or a result with the updated state. -/
inductive TRes (α : Type) where
  | eof
  | err (e : TokErr)
  | ok (s : TokState) (a : α)
deriving DecidableEq, Repr

/-- `skip_ws`: skip whitespace, returning the first non-ws character
(left as the current character). -/
def skipWs : Nat → TokState → TRes Char
  | 0, _ => .eof
  | f + 1, s =>
    if isWs s.cur then
      match advanceH s with
      | Option.none => .eof
      | some (s', _) => skipWs f s'
    else .ok s s.cur

def takeWhileSoft (p : Char → Bool) : Nat → TokState → Char →
    List Char → TRes (List Char)
  | 0, _, _, _ => .eof
  | f + 1, s, c, acc =>
    if p c then
      match advanceS s with
      | (s', c') => takeWhileSoft p f s' c' (acc ++ [c])
    else .ok s acc

/-- `take_decimal`. -/
def takeDecimal (f : Nat) (s : TokState) : TRes Nat :=
  match takeWhileSoft isDigit f s s.cur [] with
  | .eof => .eof
  | .err e => .err e
  | .ok s' ds =>
    if ds.isEmpty then .err (.parse s'.loc "Expected decimal value".toList)
    else .ok s' (decToNat ds)

/-- `take_id_code`. -/
def takeIdCode (f : Nat) (s : TokState) : TRes (List Char) :=
  match takeWhileSoft isPrintable f s s.cur [] with
  | .eof => .eof
  | .err e => .err e
  | .ok s' ps =>
    if ps.isEmpty then .err (.parse s'.loc "Expected id code".toList)
    else .ok s' ps

/-- `take_simple_identifier`. -/
def takeSimpleIdentifier (f : Nat) (s : TokState) : TRes (List Char) :=
  let first := s.cur
  match advanceH s with
  | Option.none => .eof
  | some (s1, c1) =>
    match takeWhileSoft isIdentChar f s1 c1 [first] with
    | .eof => .eof
    | .err e => .err e
    | .ok s' cs => .ok s' cs

def takeEscapedAux : Nat → TokState → Char → List Char → TRes (List Char)
  | 0, _, _, _ => .eof
  | f + 1, s, c, acc =>
    if c.toNat == 9 || c.toNat == 10 || c.toNat == 32 then .ok s acc
    else if ¬ isPrintable c then
      .err (.parse s.loc
        "Escaped identifier can only contain printable ASCII characters".toList)
    else
      match advanceH s with
      | Option.none => .eof
      | some (s', c') => takeEscapedAux f s' c' (acc ++ [c])

/-- `take_escaped_identifier` (the leading backslash is dropped). -/
def takeEscapedIdentifier (f : Nat) (s : TokState) : TRes (List Char) :=
  match advanceH s with
  | Option.none => .eof
  | some (s1, c1) => takeEscapedAux f s1 c1 []

/-- `take_identifier`. -/
def takeIdentifier (f : Nat) (s : TokState) : TRes (List Char) :=
  if isIdentStart s.cur then takeSimpleIdentifier f s
  else if s.cur = '\\' then takeEscapedIdentifier f s
  else .err (.parse s.loc "Simple identifier must start with a-zA-Z_".toList)

/-- `take_ws_after_kw`. -/
def takeWsAfterKw (s : TokState) (kw : List Char) : TRes Unit :=
  if isWs s.cur then
    match advanceH s with
    | Option.none => .eof
    | some (s', _) => .ok s' ()
  else
    .err (.parse s.loc
      ("Expected whitespace after identifier $".toList ++ kw))

def takeToEndAux : Nat → TokState → List Char → TRes (List Char)
  | 0, _, _ => .eof
  | f + 1, s, chars =>
    if chars.getLast? = some 'd' ∧
        (chars.drop (chars.length - 4)).take 3 = "$en".toList then
      let n := chars.length
      if 4 < n ∧ ¬ isWs (chars.get! (n - 5)) then
        .err (.parse ⟨s.line, s.col - min n 5⟩
          "Expected whitespace before $end".toList)
      else .ok s (chars.take (n - 5))
    else
      match advanceH s with
      | Option.none => .eof
      | some (s', c') => takeToEndAux f s' (chars ++ [c'])

/-- `take_to_end`: collect characters until a terminating `$end`,
requiring whitespace before it; returns the text before that
whitespace. -/
def takeToEnd (f : Nat) (s : TokState) : TRes (List Char) :=
  match advanceH s with
  | Option.none => .eof
  | some (s1, c1) =>
    match advanceH s1 with
    | Option.none => .eof
    | some (s2, c2) =>
      match advanceH s2 with
      | Option.none => .eof
      | some (s3, c3) => takeToEndAux f s3 [s.cur, c1, c2, c3]

/-- `take_end`. -/
def takeEnd (f : Nat) (s : TokState) : TRes Unit :=
  match skipWs f s with
  | .eof => .eof
  | .err e => .err e
  | .ok s0 c0 =>
    if c0 ≠ '$' then .err (.parse s0.loc "Expected $end".toList)
    else match advanceH s0 with
    | Option.none => .eof
    | some (s1, c1) =>
      if c1 ≠ 'e' then .err (.parse s1.loc "Expected $end".toList)
      else match advanceH s1 with
      | Option.none => .eof
      | (some (s2, c2)) =>
        if c2 ≠ 'n' then .err (.parse s2.loc "Expected $end".toList)
        else match advanceH s2 with
        | Option.none => .eof
        | some (s3, c3) =>
          if c3 ≠ 'd' then .err (.parse s3.loc "Expected $end".toList)
          else .ok s3 ()

/-- Reader tokens (spans not modelled).  A vector change's value is the
parsed integer for pure binary digits, or the raw text when it contains
`x`/`z` characters.  A real change keeps the raw digit text (Python's
`float` conversion is not modelled; the writer sessions verified here
never emit real changes). -/
inductive Token where
  | comment (text : List Char)
  | date (text : List Char)
  | enddefinitions
  | scope (scopeType : List Char) (ident : List Char)
  | timescale (magnitude : Nat) (unit : List Char)
  | upscope
  | varDecl (varType : List Char) (size : Nat) (idCode : List Char)
      (ident : List Char) (bitIndex : Option (Nat × Option Nat))
  | version (text : List Char)
  | dumpall
  | dumpoff
  | dumpon
  | dumpvars
  | endTok
  | changeTime (t : Nat)
  | changeScalar (idCode : List Char) (value : Char)
  | changeVector (idCode : List Char) (value : Nat ⊕ List Char)
  | changeReal (idCode : List Char) (raw : List Char)
  | changeString (idCode : List Char) (value : List Char)
deriving DecidableEq, Repr

def TIMESCALE_MAGNITUDES : List Nat := [1, 10, 100]

/-- The reader's `VarType` enum additionally admits `logic`, which the
writer's `VAR_TYPES` does not list. -/
def READER_VAR_TYPES : List (List Char) := VAR_TYPES ++ ["logic".toList]

def TIMESCALE_UNITS : List (List Char) :=
  ["s".toList, "ms".toList, "us".toList, "ns".toList, "ps".toList,
    "fs".toList]

/-- `take_bit_index`. -/
def takeBitIndex (f : Nat) (s : TokState) : TRes (Nat × Option Nat) :=
  match skipWs f s with
  | .eof => .eof
  | .err e => .err e
  | .ok s0 _ =>
    match takeDecimal f s0 with
    | .eof => .eof
    | .err e => .err e
    | .ok s1 index0 =>
      match skipWs f s1 with
      | .eof => .eof
      | .err e => .err e
      | .ok s2 c2 =>
        let afterColon : TRes (TokState × Option Nat) :=
          if c2 = ':' then
            match advanceH s2 with
            | Option.none => .eof
            | some (s3, _) =>
              match skipWs f s3 with
              | .eof => .eof
              | .err e => .err e
              | .ok s4 _ =>
                match takeDecimal f s4 with
                | .eof => .eof
                | .err e => .err e
                | .ok s5 index1 => .ok s5 (s5, some index1)
          else .ok s2 (s2, Option.none)
        match afterColon with
        | .eof => .eof
        | .err e => .err e
        | .ok _ (sA, index1) =>
          match skipWs f sA with
          | .eof => .eof
          | .err e => .err e
          | .ok sB cB =>
            if cB = ']' then
              let sC := (advanceS sB).1
              .ok sC (index0, index1)
            else
              .err (.parse sB.loc
                "Expected bit index to terminate with \x22]\x22".toList)

/-- The `'$'` branch of `_parse_token`: dispatch on the keyword. -/
def parseDollar (f : Nat) (s : TokState) : TRes Token :=
  match takeIdentifier f s with
  | .eof => .eof
  | .err e => .err e
  | .ok s1 kw =>
    if kw = "comment".toList then
      match takeWsAfterKw s1 kw with
      | .eof => .eof
      | .err e => .err e
      | .ok s2 _ =>
        match takeToEnd f s2 with
        | .eof => .eof
        | .err e => .err e
        | .ok s3 text => .ok s3 (.comment text)
    else if kw = "date".toList then
      match takeWsAfterKw s1 kw with
      | .eof => .eof
      | .err e => .err e
      | .ok s2 _ =>
        match takeToEnd f s2 with
        | .eof => .eof
        | .err e => .err e
        | .ok s3 text => .ok s3 (.date text)
    else if kw = "enddefinitions".toList then
      match takeWsAfterKw s1 kw with
      | .eof => .eof
      | .err e => .err e
      | .ok s2 _ =>
        match takeEnd f s2 with
        | .eof => .eof
        | .err e => .err e
        | .ok s3 _ => .ok s3 .enddefinitions
    else if kw = "scope".toList then
      match takeWsAfterKw s1 kw with
      | .eof => .eof
      | .err e => .err e
      | .ok s2 _ =>
        match skipWs f s2 with
        | .eof => .eof
        | .err e => .err e
        | .ok s3 _ =>
          match takeIdentifier f s3 with
          | .eof => .eof
          | .err e => .err e
          | .ok s4 stype =>
            if ¬ SCOPE_TYPES.contains stype then
              .err (.parse s4.loc
                ("Invalid $scope type: ".toList ++ stype))
            else
              match skipWs f s4 with
              | .eof => .eof
              | .err e => .err e
              | .ok s5 _ =>
                match takeIdentifier f s5 with
                | .eof => .eof
                | .err e => .err e
                | .ok s6 sid =>
                  match takeEnd f s6 with
                  | .eof => .eof
                  | .err e => .err e
                  | .ok s7 _ => .ok s7 (.scope stype sid)
    else if kw = "timescale".toList then
      match takeWsAfterKw s1 kw with
      | .eof => .eof
      | .err e => .err e
      | .ok s2 _ =>
        match skipWs f s2 with
        | .eof => .eof
        | .err e => .err e
        | .ok s3 _ =>
          match takeDecimal f s3 with
          | .eof => .eof
          | .err e => .err e
          | .ok s4 mag =>
            if ¬ TIMESCALE_MAGNITUDES.contains mag then
              .err (.parse s4.loc
                ("Invalid $timescale magnitude: ".toList ++ natToDec mag ++
                  ". Must be one of: 1, 10, 100.".toList))
            else
              match skipWs f s4 with
              | .eof => .eof
              | .err e => .err e
              | .ok s5 _ =>
                match takeIdentifier f s5 with
                | .eof => .eof
                | .err e => .err e
                | .ok s6 unit =>
                  if ¬ TIMESCALE_UNITS.contains unit then
                    .err (.parse s6.loc
                      ("Invalid $timescale unit: ".toList ++ unit ++
                        ". Must be one of: s, ms, us, ns, ps, fs.".toList))
                  else
                    match takeEnd f s6 with
                    | .eof => .eof
                    | .err e => .err e
                    | .ok s7 _ => .ok s7 (.timescale mag unit)
    else if kw = "upscope".toList then
      match takeWsAfterKw s1 kw with
      | .eof => .eof
      | .err e => .err e
      | .ok s2 _ =>
        match takeEnd f s2 with
        | .eof => .eof
        | .err e => .err e
        | .ok s3 _ => .ok s3 .upscope
    else if kw = "var".toList then
      match takeWsAfterKw s1 kw with
      | .eof => .eof
      | .err e => .err e
      | .ok s2 _ =>
        match skipWs f s2 with
        | .eof => .eof
        | .err e => .err e
        | .ok s3 _ =>
          match takeIdentifier f s3 with
          | .eof => .eof
          | .err e => .err e
          | .ok s4 tstr =>
            if ¬ READER_VAR_TYPES.contains tstr then
              .err (.parse s4.loc
                ("Invalid $var type: ".toList ++ tstr ++
                  (". Must be one of: event, integer, parameter, real, " ++
                   "realtime, reg, supply0, supply1, time, tri, triand, " ++
                   "trior, trireg, tri0, tri1, wand, wire, wor, string, " ++
                   "logic").toList))
            else
              match skipWs f s4 with
              | .eof => .eof
              | .err e => .err e
              | .ok s5 _ =>
                match takeDecimal f s5 with
                | .eof => .eof
                | .err e => .err e
                | .ok s6 size =>
                  match skipWs f s6 with
                  | .eof => .eof
                  | .err e => .err e
                  | .ok s7 _ =>
                    match takeIdCode f s7 with
                    | .eof => .eof
                    | .err e => .err e
                    | .ok s8 idCode =>
                      match skipWs f s8 with
                      | .eof => .eof
                      | .err e => .err e
                      | .ok s9 _ =>
                        match takeIdentifier f s9 with
                        | .eof => .eof
                        | .err e => .err e
                        | .ok s10 ident =>
                          match skipWs f s10 with
                          | .eof => .eof
                          | .err e => .err e
                          | .ok s11 c11 =>
                            let afterIdx : TRes (Option (Nat × Option Nat)) :=
                              if c11 = '[' then
                                match advanceH s11 with
                                | Option.none => .eof
                                | some (s12, _) =>
                                  match takeBitIndex f s12 with
                                  | .eof => .eof
                                  | .err e => .err e
                                  | .ok s13 bi => .ok s13 (some bi)
                              else .ok s11 Option.none
                            match afterIdx with
                            | .eof => .eof
                            | .err e => .err e
                            | .ok sA bi =>
                              match takeEnd f sA with
                              | .eof => .eof
                              | .err e => .err e
                              | .ok sB _ =>
                                .ok sB (.varDecl tstr size idCode ident bi)
    else if kw = "version".toList then
      match takeWsAfterKw s1 kw with
      | .eof => .eof
      | .err e => .err e
      | .ok s2 _ =>
        match takeToEnd f s2 with
        | .eof => .eof
        | .err e => .err e
        | .ok s3 text => .ok s3 (.version text)
    else if kw = "dumpall".toList then .ok s1 .dumpall
    else if kw = "dumpoff".toList then .ok s1 .dumpoff
    else if kw = "dumpon".toList then .ok s1 .dumpon
    else if kw = "dumpvars".toList then .ok s1 .dumpvars
    else if kw = "end".toList then .ok s1 .endTok
    else .err (.parse s1.loc ("invalid keyword $".toList ++ kw))

def takeWhileHard (p : Char → Bool) : Nat → TokState → Char →
    List Char → TRes (List Char × Char)
  | 0, _, _, _ => .eof
  | f + 1, s, c, acc =>
    if p c then
      match advanceH s with
      | Option.none => .eof
      | some (s', c') => takeWhileHard p f s' c' (acc ++ [c])
    else .ok s (acc, c)

def isScalarValueChar (c : Char) : Bool :=
  c == '0' || c == '1' || c == 'z' || c == 'Z' || c == 'x' || c == 'X'

def isXZ (c : Char) : Bool := c == 'z' || c == 'Z' || c == 'x' || c == 'X'

/-- The tail of the vector-change branch: whitespace check, `skip_ws`,
`take_id_code`. -/
def finishVector (f : Nat) (s : TokState) (c : Char)
    (value : Nat ⊕ List Char) : TRes Token :=
  if ¬ isWs c then
    .err (.parse s.loc "Expected whitespace after vector value".toList)
  else
    match skipWs f s with
    | .eof => .eof
    | .err e => .err e
    | .ok s1 _ =>
      match takeIdCode f s1 with
      | .eof => .eof
      | .err e => .err e
      | .ok s2 idc => .ok s2 (.changeVector idc value)

/-- `_parse_token`.  In the vector branch, a token with no binary digits
and no `x`/`z` reaches Python's `int(b'', 2)`, whose `ValueError` escapes
with no location attached. -/
def parseToken (f : Nat) (s : TokState) : TRes Token :=
  match skipWs f s with
  | .eof => .eof
  | .err e => .err e
  | .ok s0 c =>
    if c = '#' then
      match advanceH s0 with
      | Option.none => .eof
      | some (s1, _) =>
        match takeDecimal f s1 with
        | .eof => .eof
        | .err e => .err e
        | .ok s2 t => .ok s2 (.changeTime t)
    else if isScalarValueChar c then
      match advanceH s0 with
      | Option.none => .eof
      | some (s1, _) =>
        match takeIdCode f s1 with
        | .eof => .eof
        | .err e => .err e
        | .ok s2 idc => .ok s2 (.changeScalar idc c)
    else if c = 'B' ∨ c = 'b' then
      match advanceH s0 with
      | Option.none => .eof
      | some (s1, c1) =>
        match takeWhileHard (fun d => d == '0' || d == '1') f s1 c1 [] with
        | .eof => .eof
        | .err e => .err e
        | .ok s2 (vec, c2) =>
          if isXZ c2 then
            match advanceH s2 with
            | Option.none => .eof
            | some (s3, c3) =>
              match takeWhileHard isScalarValueChar f s3 c3 (vec ++ [c2]) with
              | .eof => .eof
              | .err e => .err e
              | .ok s4 (vec2, c4) => finishVector f s4 c4 (Sum.inr vec2)
          else
            if vec.isEmpty then
              .err (.valueErr
                "invalid literal for int() with base 2: b''".toList)
            else finishVector f s2 c2 (Sum.inl (binToNat vec))
    else if c = 'R' ∨ c = 'r' then
      match advanceH s0 with
      | Option.none => .eof
      | some (s1, c1) =>
        match takeWhileHard (fun d => ¬ isWs d) f s1 c1 [] with
        | .eof => .eof
        | .err e => .err e
        | .ok s2 (digits, _) =>
          match skipWs f s2 with
          | .eof => .eof
          | .err e => .err e
          | .ok s3 _ =>
            match takeIdCode f s3 with
            | .eof => .eof
            | .err e => .err e
            | .ok s4 idc => .ok s4 (.changeReal idc digits)
    else if c = 'S' ∨ c = 's' then
      match advanceH s0 with
      | Option.none => .eof
      | some (s1, c1) =>
        match takeWhileHard (fun d => ¬ isWs d) f s1 c1 [] with
        | .eof => .eof
        | .err e => .err e
        | .ok s2 (chars, _) =>
          match skipWs f s2 with
          | .eof => .eof
          | .err e => .err e
          | .ok s3 _ =>
            match takeIdCode f s3 with
            | .eof => .eof
            | .err e => .err e
            | .ok s4 idc => .ok s4 (.changeString idc chars)
    else if c = '$' then
      match advanceH s0 with
      | Option.none => .eof
      | some (s1, _) => parseDollar f s1
    else .err (.parse s0.loc ("confused: ".toList ++ [c]))

/-- The `tokenize` generator loop: collect tokens until end of input or
an escaping error.  Each `_parse_token` call gets fuel exceeding the
remaining input, which every tokenizer loop consumes. -/
def tokenizeAux : Nat → TokState → List Token × Option TokErr
  | 0, _ => ([], Option.none)
  | f + 1, s =>
    match advanceH s with
    | Option.none => ([], Option.none)
    | some (s', _) =>
      match parseToken (s'.rest.length + 1) s' with
      | .eof => ([], Option.none)
      | .err e => ([], some e)
      | .ok s'' tok =>
        match tokenizeAux f s'' with
        | (toks, e) => (tok :: toks, e)

/-- `tokenize` on a whole input. -/
def tokenize (input : List Char) : List Token × Option TokErr :=
  tokenizeAux (input.length + 1) ⟨'\x00' :: input, 1, 0⟩

/-- C9: the tokenizer does not always attach a location.  A vector-change
token with no binary digits before its terminating whitespace (`b !`)
reaches Python's `int(b'', 2)`, whose bare `ValueError` escapes
`_parse_token` with no line/column location, in code the claim asserts
always raises a located parse error. -/
theorem C9_vector_no_digits_unlocated :
    tokenize "b !".toList =
      ([], some (TokErr.valueErr
        "invalid literal for int() with base 2: b''".toList)) ∧
    ∀ (loc : Loc) (msg : List Char),
      TokErr.valueErr "invalid literal for int() with base 2: b''".toList ≠
        TokErr.parse loc msg := by
  refine ⟨by decide, ?_⟩
  intro loc msg h
  exact TokErr.noConfusion h

/-! ## Claim C1: writer-to-reader round-trip -/

theorem advanceH_one (x : Char) (l col : Nat) :
    advanceH ⟨[x], l, col⟩ = Option.none := rfl

end VCD
